import Mathlib

/-!
# Cookie Clarity: the popup script

A shallow embedding of `src/script.js`: the batch explanation request
(`getBatchCookieExplanations`), the two rendering passes of the
`chrome.cookies.getAll` callback and `escapeHtml`, together with the parts of
the JavaScript platform these functions rely on (`String.prototype.trim`,
`JSON.parse`, `JSON.stringify`, property lookup, conversion to string).

Conventions of the embedding.

* A JavaScript string is the list of its characters (Unicode scalar values).
* Asynchronous steps are sequenced as the `await`s sequence them; `console`
  output is not modelled.
* What the platform decides and the source does not (collation, the rendering
  of numbers, the text of platform error messages, the members of the built-in
  prototypes) is collected in `Engine` and passed as a parameter.
* The script is a classic script without a strict mode directive: an
  assignment that a property refuses is ignored, it does not throw.
* `explanationSpans` is the list of its own keys with the row each one points
  to, and a flag that tells whether an assignment to the name `__proto__` has
  replaced its prototype by an element.
-/

namespace CookieClarity

/-! ## Values -/

/-- A JavaScript string, as the sequence of its characters. -/
abbrev JsString := List Char

/-- The quotation mark `"`. -/
def dquote : Char := Char.ofNat 34

/-- The apostrophe. -/
def squote : Char := Char.ofNat 39

/-- The backslash. -/
def backslash : Char := Char.ofNat 92

/-- The backtick. -/
def backtick : Char := Char.ofNat 96

/-- A number read from JSON text: the decimal `± mant · 10 ^ exp`. -/
structure JsNumber where
  neg : Bool
  mant : Nat
  exp : Int
deriving DecidableEq

/-- A number is falsy when its double value is zero: the decimal is zero, or
it is at most `2 ^ -1075`, half the least positive double, and rounds to zero. -/
def JsNumber.isZero (n : JsNumber) : Bool :=
  n.mant == 0 || (n.exp < 0 && decide (n.mant * 2 ^ 1075 ≤ 10 ^ (-n.exp).toNat))

/-- The number of a non-negative integer, such as an array length. -/
def JsNumber.ofNat (n : Nat) : JsNumber := ⟨false, n, 0⟩

/-- The values `JSON.parse` and `response.json()` produce. An object keeps its
members in source order; a name that occurs twice denotes its last value. -/
inductive Json where
  | null
  | bool (b : Bool)
  | num (n : JsNumber)
  | str (s : JsString)
  | arr (items : List Json)
  | obj (fields : List (JsString × Json))

/-- What an expression of the script can evaluate to: a JSON value,
`undefined`, or a member inherited from a built-in prototype (a function, or
a prototype object), which is truthy and is not a string. -/
inductive JsValue where
  | undefined
  | builtin
  | json (j : Json)

/-- Truthiness of a JSON value (`ToBoolean`). -/
def Json.truthy : Json → Bool
  | .null => false
  | .bool b => b
  | .num n => !n.isZero
  | .str s => !s.isEmpty
  | .arr _ => true
  | .obj _ => true

/-- Truthiness of a value (`ToBoolean`). -/
def JsValue.truthy : JsValue → Bool
  | .undefined => false
  | .builtin => true
  | .json j => j.truthy

/-- Faults raised by the platform rather than by a `throw` of the script. -/
inductive Fault where
  /-- A call of something that is not a function, `expr` being the callee. -/
  | notAFunction (expr : JsString)
  /-- Conversion to string of an object that has no usable `toString`. -/
  | notPrimitive
  /-- The text is not valid JSON (`JSON.parse`). -/
  | jsonSyntax (text : JsString)
  /-- An accessor of an element is called on an object that is not an element. -/
  | illegalInvocation
  /-- A property is set on `undefined`. -/
  | setOnUndefined
deriving DecidableEq

/-- The kinds of member a `span` element inherits from the interfaces of
elements. -/
inductive Member where
  /-- An attribute: an accessor whose getter and, when it is `settable`, whose
  setter fault when they are called on an object that is not an element. -/
  | attribute (settable : Bool)
  /-- An attribute that is lenient about its receiver: on an object that is
  not an element the getter gives `undefined` and the setter does nothing. -/
  | lenient
  /-- An operation: a writable data property that holds a function. -/
  | method
  /-- A constant: a data property that is not writable. -/
  | constant
deriving DecidableEq

/-- A thrown value: `new Error(message)`, or a platform fault. -/
inductive Thrown where
  | error (message : JsString)
  | fault (f : Fault)
deriving DecidableEq

/-- What the platform decides. -/
structure Engine where
  /-- The result of `a.localeCompare(b)`: negative, zero or positive. -/
  localeCompare : JsString → JsString → Int
  /-- The string of a number (`Number::toString`). -/
  numberToString : JsNumber → JsString
  /-- The `message` of a platform fault. -/
  faultMessage : Fault → JsString
  /-- The names every plain object inherits from `Object.prototype`. -/
  objectProto : JsString → Bool
  /-- The names every array inherits from `Array.prototype` and
  `Object.prototype`. -/
  arrayProto : JsString → Bool
  /-- The enumerable members a `span` element inherits from its prototype
  chain, each with its kind, in the order `for ... in` visits them. -/
  elementMembers : List (JsString × Member)

/-- The member of that name which a `span` element inherits, if there is one. -/
def Engine.elementMember (E : Engine) (name : JsString) : Option Member :=
  (E.elementMembers.find? fun m => decide (m.1 = name)).map fun m => m.2

/-- The `message` property of a thrown value. -/
def Engine.message (E : Engine) : Thrown → JsString
  | .error m => m
  | .fault f => E.faultMessage f

/-! ## `escapeHtml` -/

/-- The call `s.replace(/c/g, rep)` for a pattern `c` that is one literal
character: every occurrence is replaced, left to right. -/
def replaceAllChar (c : Char) (rep : JsString) (s : JsString) : JsString :=
  s.flatMap fun x => if x = c then rep else [x]

/-- The five replacements of `escapeHtml`, in the order of the source. -/
def escapeString (s : JsString) : JsString :=
  replaceAllChar squote "&#039;".toList
    (replaceAllChar dquote "&quot;".toList
      (replaceAllChar '>' "&gt;".toList
        (replaceAllChar '<' "&lt;".toList
          (replaceAllChar '&' "&amp;".toList s))))

/-- The function `escapeHtml(unsafe)`: a falsy argument gives the empty string;
a string goes through the five replacements; any other truthy value has no
`replace` method and the call faults. -/
def escapeHtml (v : JsValue) : Except Thrown JsString :=
  if !v.truthy then .ok []
  else
    match v with
    | .json (.str s) => .ok (escapeString s)
    | _ => .error (.fault (.notAFunction "unsafe.replace".toList))

/-- The entity that stands for one character in escaped text: the
character-by-character reading of `escapeHtml`. -/
def escapeChar (c : Char) : JsString :=
  if c = '&' then "&amp;".toList
  else if c = '<' then "&lt;".toList
  else if c = '>' then "&gt;".toList
  else if c = dquote then "&quot;".toList
  else if c = squote then "&#039;".toList
  else [c]

/-! ## Whitespace, `trim` and the code fence -/

/-- The characters `String.prototype.trim` removes and the class `\s` of a
regular expression matches: the white space and line terminator code points. -/
def isWhiteSpace (c : Char) : Bool :=
  let n := c.toNat
  (9 ≤ n && n ≤ 13) || n == 32 || n == 160 || n == 5760 || (8192 ≤ n && n ≤ 8202)
    || n == 8232 || n == 8233 || n == 8239 || n == 8287 || n == 12288 || n == 65279

/-- The call `s.trim()`. -/
def trim (s : JsString) : JsString :=
  ((s.dropWhile isWhiteSpace).reverse.dropWhile isWhiteSpace).reverse

/-- The rest of `s` after the literal text `lit`, when `s` starts with it. -/
def dropLiteral : JsString → JsString → Option JsString
  | [], s => some s
  | _ :: _, [] => none
  | a :: lit, b :: s => if a = b then dropLiteral lit s else none

/-- The opening fence marker: three backticks and the word `json`. -/
def fenceOpen : JsString := [backtick, backtick, backtick, 'j', 's', 'o', 'n']

/-- The closing fence marker: three backticks. -/
def fenceClose : JsString := [backtick, backtick, backtick]

/-- The call `s.replace(/^<fenceOpen>\s*/, "")`: an opening marker at the very
start is removed together with all the whitespace after it. -/
def removeLeadingFence (s : JsString) : JsString :=
  match dropLiteral fenceOpen s with
  | some rest => rest.dropWhile isWhiteSpace
  | none => s

/-- The call `s.replace(/<fenceClose>$/, "")`: a closing marker at the very end
is removed (the marker reads the same in both directions). -/
def removeTrailingFence (s : JsString) : JsString :=
  match dropLiteral fenceClose s.reverse with
  | some rest => rest.reverse
  | none => s

/-- The value of `cleanJsonString` for a response text. -/
def cleanJsonString (responseText : JsString) : JsString :=
  removeTrailingFence (removeLeadingFence (trim responseText))

/-! ## `JSON.parse`: the lexer -/

/-- The tokens of the JSON grammar. -/
inductive Token where
  | lbrace | rbrace | lbracket | rbracket | colon | comma
  | str (s : JsString)
  | num (n : JsNumber)
  | litTrue | litFalse | litNull

/-- The part of a number the lexer is in. -/
inductive NumPhase where
  /-- After the minus sign: a digit must come. -/
  | minus
  /-- After an integer part that is the single digit zero. -/
  | zero
  /-- Inside an integer part that starts with a digit other than zero. -/
  | int
  /-- After the decimal point: a digit must come. -/
  | dot
  /-- Inside the fraction digits. -/
  | frac
  /-- After the letter e: a sign or a digit must come. -/
  | e
  /-- After the sign of the exponent: a digit must come. -/
  | esign
  /-- Inside the exponent digits. -/
  | expo
deriving DecidableEq

/-- The digits of a number read so far. -/
structure NumAcc where
  neg : Bool := false
  mant : Nat := 0
  fracLen : Nat := 0
  expNeg : Bool := false
  expVal : Nat := 0

/-- The number a finished lexeme denotes. -/
def NumAcc.toNumber (a : NumAcc) : JsNumber :=
  ⟨a.neg, a.mant, (if a.expNeg then -(a.expVal : Int) else (a.expVal : Int)) - (a.fracLen : Int)⟩

/-- The state of the lexer between two characters. Inside a string the
content is kept as UTF-16 code units, last first. -/
inductive LexState where
  | idle
  | lit (rest : List Char) (tok : Token)
  | string (acc : List Nat)
  | escape (acc : List Nat)
  | unicode (acc : List Nat) (count : Nat) (value : Nat)
  | number (phase : NumPhase) (n : NumAcc)

/-- The UTF-16 code units of a character, last first. -/
def utf16Units (c : Char) : List Nat :=
  let n := c.toNat
  if n < 65536 then [n]
  else [56320 + (n - 65536) % 1024, 55296 + (n - 65536) / 1024]

/-- The character of one code unit; an unpaired surrogate, which no character
of the model stands for, is shown as U+FFFD. -/
def unitChar (u : Nat) : Char :=
  if 55296 ≤ u ∧ u ≤ 57343 then Char.ofNat 65533 else Char.ofNat u

/-- The characters of a sequence of UTF-16 code units. -/
def utf16Decode : List Nat → JsString
  | [] => []
  | [u] => [unitChar u]
  | u :: v :: rest =>
    if 55296 ≤ u ∧ u ≤ 56319 ∧ 56320 ≤ v ∧ v ≤ 57343 then
      Char.ofNat (65536 + (u - 55296) * 1024 + (v - 56320)) :: utf16Decode rest
    else unitChar u :: utf16Decode (v :: rest)

/-- The value of a decimal digit. -/
def digitVal (c : Char) : Option Nat :=
  if 48 ≤ c.toNat ∧ c.toNat ≤ 57 then some (c.toNat - 48) else none

/-- The value of a hexadecimal digit, in either case. -/
def hexVal (c : Char) : Option Nat :=
  if 48 ≤ c.toNat ∧ c.toNat ≤ 57 then some (c.toNat - 48)
  else if 97 ≤ c.toNat ∧ c.toNat ≤ 102 then some (c.toNat - 87)
  else if 65 ≤ c.toNat ∧ c.toNat ≤ 70 then some (c.toNat - 55)
  else none

/-- JSON whitespace: tab, line feed, carriage return and space. -/
def isJsonSpace (c : Char) : Bool :=
  c.toNat == 9 || c.toNat == 10 || c.toNat == 13 || c.toNat == 32

/-- The lexer between tokens: `out` holds the tokens read so far, last first. -/
def lexStart (out : List Token) (c : Char) : Option (LexState × List Token) :=
  if isJsonSpace c then some (.idle, out)
  else if c = '{' then some (.idle, .lbrace :: out)
  else if c = '}' then some (.idle, .rbrace :: out)
  else if c = '[' then some (.idle, .lbracket :: out)
  else if c = ']' then some (.idle, .rbracket :: out)
  else if c = ':' then some (.idle, .colon :: out)
  else if c = ',' then some (.idle, .comma :: out)
  else if c = dquote then some (.string [], out)
  else if c = '-' then some (.number .minus { neg := true }, out)
  else if c = '0' then some (.number .zero {}, out)
  else if c = 't' then some (.lit ['r', 'u', 'e'] .litTrue, out)
  else if c = 'f' then some (.lit ['a', 'l', 's', 'e'] .litFalse, out)
  else if c = 'n' then some (.lit ['u', 'l', 'l'] .litNull, out)
  else
    match digitVal c with
    | some d => some (.number .int { mant := d }, out)
    | none => none

/-- The character that follows a backslash in a string, as a code unit. -/
def escapeUnit (c : Char) : Option Nat :=
  if c = dquote then some 34
  else if c = backslash then some 92
  else if c = '/' then some 47
  else if c = 'b' then some 8
  else if c = 'f' then some 12
  else if c = 'n' then some 10
  else if c = 'r' then some 13
  else if c = 't' then some 9
  else none

/-- One character inside a number: the lexeme goes on, or it has ended and the
character starts what follows. -/
def lexNumber (phase : NumPhase) (n : NumAcc) (out : List Token) (c : Char) :
    Option (LexState × List Token) :=
  let isE : Bool := c = 'e' || c = 'E'
  let finished := lexStart (.num n.toNumber :: out) c
  match phase, digitVal c with
  | .minus, some d => if d = 0 then some (.number .zero n, out)
                      else some (.number .int { n with mant := d }, out)
  | .minus, none => none
  | .zero, _ =>
    if c = '.' then some (.number .dot n, out)
    else if isE then some (.number .e n, out)
    else finished
  | .int, some d => some (.number .int { n with mant := n.mant * 10 + d }, out)
  | .int, none =>
    if c = '.' then some (.number .dot n, out)
    else if isE then some (.number .e n, out)
    else finished
  | .dot, some d =>
    some (.number .frac { n with mant := n.mant * 10 + d, fracLen := n.fracLen + 1 }, out)
  | .dot, none => none
  | .frac, some d =>
    some (.number .frac { n with mant := n.mant * 10 + d, fracLen := n.fracLen + 1 }, out)
  | .frac, none => if isE then some (.number .e n, out) else finished
  | .e, some d => some (.number .expo { n with expVal := d }, out)
  | .e, none =>
    if c = '+' then some (.number .esign n, out)
    else if c = '-' then some (.number .esign { n with expNeg := true }, out)
    else none
  | .esign, some d => some (.number .expo { n with expVal := d }, out)
  | .esign, none => none
  | .expo, some d => some (.number .expo { n with expVal := n.expVal * 10 + d }, out)
  | .expo, none => finished

/-- One step of the lexer: the next state and the tokens read so far, or
nothing when the character cannot come here. -/
def lexStep (st : LexState × List Token) (c : Char) : Option (LexState × List Token) :=
  match st with
  | (.idle, out) => lexStart out c
  | (.lit [] _, _) => none
  | (.lit (r :: rest) tok, out) =>
    if c = r then
      match rest with
      | [] => some (.idle, tok :: out)
      | _ :: _ => some (.lit rest tok, out)
    else none
  | (.string acc, out) =>
    if c = dquote then some (.idle, .str (utf16Decode acc.reverse) :: out)
    else if c = backslash then some (.escape acc, out)
    else if c.toNat < 32 then none
    else some (.string (utf16Units c ++ acc), out)
  | (.escape acc, out) =>
    if c = 'u' then some (.unicode acc 0 0, out)
    else
      match escapeUnit c with
      | some u => some (.string (u :: acc), out)
      | none => none
  | (.unicode acc k v, out) =>
    match hexVal c with
    | some d =>
      if k = 3 then some (.string ((v * 16 + d) :: acc), out)
      else some (.unicode acc (k + 1) (v * 16 + d), out)
    | none => none
  | (.number phase n, out) => lexNumber phase n out c

/-- The end of the text: it must not fall inside a token, except after a
number that is complete. -/
def lexFinish : LexState × List Token → Option (List Token)
  | (.idle, out) => some out.reverse
  | (.number phase n, out) =>
    if phase = .zero ∨ phase = .int ∨ phase = .frac ∨ phase = .expo then
      some (Token.num n.toNumber :: out).reverse
    else none
  | _ => none

/-- The tokens of a text, or nothing when it is not a sequence of JSON tokens. -/
def tokenize (s : JsString) : Option (List Token) :=
  s.foldlM lexStep (LexState.idle, []) >>= lexFinish

/-! ## `JSON.parse`: the grammar -/

/-- An enclosing array or object whose next value is being read. -/
inductive Frame where
  /-- An array with the elements read so far, last first. -/
  | arr (done : List Json)
  /-- An object with the members read so far, last first, and the name of the
  member whose value is being read. -/
  | obj (done : List (JsString × Json)) (key : JsString)

/-- The state of the parser between two tokens. -/
inductive ParseState where
  /-- A value must come. -/
  | value (stack : List Frame)
  /-- After an opening bracket: a value or the closing bracket. -/
  | arrStart (stack : List Frame)
  /-- After an opening brace: a member name or the closing brace. -/
  | objStart (stack : List Frame)
  /-- After a comma in an object: a member name. -/
  | key (done : List (JsString × Json)) (stack : List Frame)
  /-- After a member name: the colon. -/
  | colon (done : List (JsString × Json)) (key : JsString) (stack : List Frame)
  /-- After an element: a comma or the closing bracket. -/
  | arrNext (done : List Json) (stack : List Frame)
  /-- After a member: a comma or the closing brace. -/
  | objNext (done : List (JsString × Json)) (stack : List Frame)
  /-- The whole value has been read. -/
  | done (v : Json)

/-- A value has been read: it is the result, or it goes into the innermost
enclosing array or object. -/
def completeValue (v : Json) : List Frame → ParseState
  | [] => .done v
  | .arr done :: stack => .arrNext (v :: done) stack
  | .obj done key :: stack => .objNext ((key, v) :: done) stack

/-- The token that starts a value. -/
def parseValue (stack : List Frame) : Token → Option ParseState
  | .litNull => some (completeValue .null stack)
  | .litTrue => some (completeValue (.bool true) stack)
  | .litFalse => some (completeValue (.bool false) stack)
  | .num n => some (completeValue (.num n) stack)
  | .str s => some (completeValue (.str s) stack)
  | .lbracket => some (.arrStart stack)
  | .lbrace => some (.objStart stack)
  | _ => none

/-- One step of the parser, or nothing when the token cannot come here. -/
def parseStep (st : ParseState) (t : Token) : Option ParseState :=
  match st, t with
  | .value stack, t => parseValue stack t
  | .arrStart stack, .rbracket => some (completeValue (.arr []) stack)
  | .arrStart stack, t => parseValue (.arr [] :: stack) t
  | .objStart stack, .rbrace => some (completeValue (.obj []) stack)
  | .objStart stack, .str k => some (.colon [] k stack)
  | .key done stack, .str k => some (.colon done k stack)
  | .colon done k stack, .colon => some (.value (.obj done k :: stack))
  | .arrNext done stack, .comma => some (.value (.arr done :: stack))
  | .arrNext done stack, .rbracket => some (completeValue (.arr done.reverse) stack)
  | .objNext done stack, .comma => some (.key done stack)
  | .objNext done stack, .rbrace => some (completeValue (.obj done.reverse) stack)
  | _, _ => none

/-- The end of the tokens: exactly one value must have been read. -/
def parseFinish : ParseState → Option Json
  | .done v => some v
  | _ => none

/-- The call `JSON.parse(text)`: the value, or nothing when the call throws a
`SyntaxError`. -/
def jsonParse (text : JsString) : Option Json :=
  tokenize text >>= fun toks => toks.foldlM parseStep (ParseState.value []) >>= parseFinish

/-! ## Member access and conversion to string -/

/-- The own member `name` among the members of an object: the last one of
that name. -/
def lookupLast (name : JsString) : List (JsString × Json) → Option Json
  | [] => none
  | (k, v) :: rest =>
    match lookupLast name rest with
    | some w => some w
    | none => if k = name then some v else none

/-- The access `v.name` on a value that is neither `null` nor `undefined`, for
a name that no built-in prototype defines: only an object can have such a
member. Nothing stands for `undefined`. -/
def Json.field (name : JsString) : Json → Option Json
  | .obj fields => lookupLast name fields
  | _ => none

/-- The access `v[0]` on a value that is neither `null` nor `undefined`: the
first element of an array, the first character of a string, the member `0` of
an object. -/
def Json.first : Json → Option Json
  | .arr (x :: _) => some x
  | .str (c :: _) => some (.str [c])
  | .obj fields => lookupLast ['0'] fields
  | _ => none

/-- Optional chaining `v?.member`: `undefined` when `v` is `null` or
`undefined`, the access otherwise. -/
def optChain (v : Option Json) (access : Json → Option Json) : Option Json :=
  match v with
  | none => none
  | some .null => none
  | some j => access j

/-- Truthiness of a value that may be `undefined`. -/
def isTruthy : Option Json → Bool
  | none => false
  | some j => j.truthy

mutual
/-- Conversion to string (`ToString`), as a template literal applies it. An
array is joined with commas; an object is `[object Object]` unless it has an
own member `toString`, which JSON cannot make callable, and then the
conversion faults. -/
def Json.toText (E : Engine) : Json → Except Thrown JsString
  | .null => .ok "null".toList
  | .bool true => .ok "true".toList
  | .bool false => .ok "false".toList
  | .num n => .ok (E.numberToString n)
  | .str s => .ok s
  | .arr items => Json.joinText E items
  | .obj fields =>
    match lookupLast "toString".toList fields with
    | some _ => .error (.fault .notPrimitive)
    | none => .ok "[object Object]".toList
/-- The call `items.join(",")`: `null` elements are empty. -/
def Json.joinText (E : Engine) : List Json → Except Thrown JsString
  | [] => .ok []
  | x :: rest =>
    let head : Except Thrown JsString :=
      match x with
      | .null => .ok []
      | x => Json.toText E x
    match head with
    | .error e => .error e
    | .ok a =>
      match rest with
      | [] => .ok a
      | _ :: _ =>
        match Json.joinText E rest with
        | .error e => .error e
        | .ok b => .ok (a ++ ',' :: b)
end

/-! ## `JSON.stringify` of the request -/

/-- A hexadecimal digit in lower case. -/
def hexDigit (n : Nat) : Char :=
  if n < 10 then Char.ofNat (48 + n) else Char.ofNat (87 + n)

/-- One character inside a string literal written by `JSON.stringify`. -/
def quoteChar (c : Char) : JsString :=
  if c = dquote then [backslash, dquote]
  else if c = backslash then [backslash, backslash]
  else if c.toNat = 8 then [backslash, 'b']
  else if c.toNat = 9 then [backslash, 't']
  else if c.toNat = 10 then [backslash, 'n']
  else if c.toNat = 12 then [backslash, 'f']
  else if c.toNat = 13 then [backslash, 'r']
  else if c.toNat < 32 then
    [backslash, 'u', '0', '0', hexDigit (c.toNat / 16), hexDigit (c.toNat % 16)]
  else [c]

/-- The string literal `JSON.stringify` writes for a string. -/
def jsonQuote (s : JsString) : JsString :=
  dquote :: s.flatMap quoteChar ++ [dquote]

/-- An entry of `cookiesInfo`: the name and the domain of a cookie. -/
structure CookieInfo where
  name : JsString
  domain : JsString
deriving DecidableEq

/-- The text `JSON.stringify` writes for one entry of `promptCookieData`, the
object with the members `name` and `domain` of the entry. -/
def stringifyEntry (c : CookieInfo) : JsString :=
  "\x7b\"name\":".toList ++ jsonQuote c.name ++ ",\"domain\":".toList ++ jsonQuote c.domain
    ++ "\x7d".toList

/-- The text of `JSON.stringify(promptCookieData)`. -/
def stringifyPromptData (cookiesInfo : List CookieInfo) : JsString :=
  '[' :: [','].intercalate (cookiesInfo.map stringifyEntry) ++ [']']

/-- The value of `API_URL`. -/
def apiUrl (apiKey : JsString) : JsString :=
  ("https://generativelanguage.googleapis.com/v1beta/models/"
    ++ "gemini-2.0-flash-lite:generateContent?key=").toList ++ apiKey

/-- The value of `prompt`; `firstName` is `cookiesInfo[0].name`. -/
def promptText (firstName : JsString) (cookiesInfo : List CookieInfo) : JsString :=
  ("Analyze the following list of web cookies. For each cookie, provide a very short "
    ++ "(1 sentence maximum) explanation of its likely purpose based on its name and domain.\n"
    ++ "IMPORTANT: Respond ONLY with a single JSON object where the keys are the exact "
    ++ "cookie names (e.g., \"").toList
  ++ firstName
  ++ ("\") and the values are the corresponding string explanations. Do not include any "
    ++ "other text, markdown formatting, or introductory phrases outside the JSON object.\n"
    ++ "\nCookie list:\n").toList
  ++ stringifyPromptData cookiesInfo
  ++ ['\n']

/-- A call of `fetch`: the address and the options of the call. -/
structure Request where
  url : JsString
  method : JsString
  contentType : JsString
  body : JsString
deriving DecidableEq

/-- The request `getBatchCookieExplanations` sends: the body is
`JSON.stringify` of the envelope `contents[0].parts[0].text = prompt`. -/
def buildRequest (firstName : JsString) (cookiesInfo : List CookieInfo) (apiKey : JsString) :
    Request where
  url := apiUrl apiKey
  method := "POST".toList
  contentType := "application/json".toList
  body := "\x7b\"contents\":[\x7b\"parts\":[\x7b\"text\":".toList
    ++ jsonQuote (promptText firstName cookiesInfo) ++ "\x7d]\x7d]\x7d".toList

/-! ## `getBatchCookieExplanations` -/

/-- An HTTP response as the script reads it: the status, the status text and
what `response.json()` settles to (the parsed body, or the rejection). -/
structure Response where
  status : Nat
  statusText : JsString
  json : Except Thrown Json

/-- The property `response.ok`: the status is in the range 200 to 299. -/
def Response.ok (r : Response) : Bool :=
  decide (200 ≤ r.status ∧ r.status ≤ 299)

/-- What a call of `fetch` settles to. -/
inductive FetchResult where
  | rejected (e : Thrown)
  | resolved (r : Response)

/-- The status indicator `overallStatus`: its `textContent`, `style.display`
and `style.color`. -/
structure Status where
  text : JsString
  display : JsString
  color : JsString
deriving DecidableEq

/-- The decimal digits of a non-negative integer, as a template literal
writes it. -/
def decimal (n : Nat) : JsString := Nat.toDigits 10 n

/-- The inner `try` block after the text check: clean the text, parse it and
check the type of the result. The value is what the block returns, the error
what it throws to the inner `catch`. -/
def parseExplanations (responseText : Json) : Except Thrown Json :=
  match responseText with
  | .str s =>
    match jsonParse (cleanJsonString s) with
    | none => .error (.fault (.jsonSyntax (cleanJsonString s)))
    | some .null => .error (.error "API response was not a valid JSON object.".toList)
    | some (.arr items) => .ok (.arr items)
    | some (.obj fields) => .ok (.obj fields)
    | some _ => .error (.error "API response was not a valid JSON object.".toList)
  | _ => .error (.fault (.notAFunction "responseText.trim".toList))

/-- The text after the status code in the error of a response that is not
`ok`: `errorData?.error?.message || response.statusText || "Unknown API error"`,
where `errorData` is the parsed body, or an empty object when the body does
not parse. -/
def errorDetail (r : Response) : Json :=
  let errorData : Json :=
    match r.json with
    | .ok j => j
    | .error _ => .obj []
  let message := optChain (optChain (some errorData) (Json.field "error".toList))
    (Json.field "message".toList)
  if isTruthy message then message.getD .null
  else if !r.statusText.isEmpty then .str r.statusText
  else .str "Unknown API error".toList

/-- The body of a response of the service whose first candidate carries the
model text `text`. -/
def candidateBody (text : JsString) : Json :=
  .obj [("candidates".toList,
    .arr [.obj [("content".toList,
      .obj [("parts".toList, .arr [.obj [("text".toList, .str text)]])])]])]

/-- The outer `try` block, from the settled `fetch` on: the value is what the
block returns, the error what it throws to the outer `catch`. -/
def requestExplanations (E : Engine) : FetchResult → Except Thrown Json
  | .rejected e => .error e
  | .resolved r =>
    if !r.ok then
      match Json.toText E (errorDetail r) with
      | .error e => .error e
      | .ok text =>
        .error (.error ("API Error ".toList ++ decimal r.status ++ ": ".toList ++ text))
    else
      match r.json with
      | .error e => .error e
      | .ok data =>
        let responseText :=
          optChain (optChain (optChain (optChain (optChain (optChain (some data)
            (Json.field "candidates".toList)) Json.first) (Json.field "content".toList))
            (Json.field "parts".toList)) Json.first) (Json.field "text".toList)
        match responseText with
        | none => .error (.error "No explanation text received from API.".toList)
        | some text =>
          if !text.truthy then .error (.error "No explanation text received from API.".toList)
          else
            match parseExplanations text with
            | .ok explanations => .ok explanations
            | .error parseError =>
              .error (.error ("Failed to parse explanation JSON: ".toList ++ E.message parseError))

/-- What a call of `getBatchCookieExplanations` leaves behind. -/
structure ExplainOutcome where
  /-- The value the call returns, or what it throws. -/
  result : Except Thrown Json
  /-- The status indicator after the call. -/
  status : Status
  /-- The calls of `fetch`, in order. -/
  requests : List Request
  /-- The delay of the timer that hides the status indicator, when one is set. -/
  hideAfter : Option Nat

/-- The function `getBatchCookieExplanations(cookiesInfo, apiKey)`, run against
a network `fetch` with the status indicator in state `status`. An empty map
is the object with no members; the absent sentinel is `null`. -/
def getBatchCookieExplanations (E : Engine) (fetch : Request → FetchResult) (status : Status)
    (cookiesInfo : List CookieInfo) (apiKey : JsString) : ExplainOutcome :=
  if apiKey.isEmpty then
    ⟨.error (.error "API Key not available.".toList), status, [], none⟩
  else
    match cookiesInfo with
    | [] => ⟨.ok (.obj []), status, [], none⟩
    | first :: _ =>
      let requesting : Status :=
        { status with
          text := "Requesting explanations for ".toList ++ decimal cookiesInfo.length
            ++ " cookies...".toList
          display := "block".toList }
      let request := buildRequest first.name cookiesInfo apiKey
      match requestExplanations E (fetch request) with
      | .ok explanations =>
        ⟨.ok explanations, { requesting with text := "Received explanations.".toList },
          [request], some 2500⟩
      | .error error =>
        ⟨.ok .null,
          { requesting with text := "Error: ".toList ++ E.message error, color := "red".toList },
          [request], none⟩

/-! ## The list of cookies: sorting and the first pass -/

/-- A cookie as `chrome.cookies.getAll` reports it, with the members the
script reads. -/
structure Cookie where
  name : JsString
  domain : JsString
  value : JsString
deriving DecidableEq

/-- The explanation element of a row: its `className` and `textContent`. -/
structure Span where
  className : JsString
  text : JsString
deriving DecidableEq

/-- A list item: the text of the name element, the text of the value element
and the explanation element. -/
structure Row where
  name : JsString
  value : JsString
  explanation : Span
deriving DecidableEq

/-- Insertion of `x` before the first element it does not come after. -/
def insertBy {α : Type} (le : α → α → Bool) (x : α) : List α → List α
  | [] => [x]
  | y :: rest => if le x y then x :: y :: rest else y :: insertBy le x rest

/-- A stable sort by insertion, from the right. -/
def sortBy {α : Type} (le : α → α → Bool) : List α → List α
  | [] => []
  | x :: rest => insertBy le x (sortBy le rest)

/-- The call `cookies.sort((a, b) => a.name.localeCompare(b.name))`. The sort
of the platform is stable, and for a comparator that orders the names
consistently it returns the one stable sorted arrangement of the array, which
is what insertion computes: `a` stays before `b` when the comparator is not
positive. -/
def sortByName (E : Engine) (cookies : List Cookie) : List Cookie :=
  sortBy (fun a b => decide (E.localeCompare a.name b.name ≤ 0)) cookies

/-- The own key `name` of `explanationSpans` is given the element of row
`index`: a name that is already a key keeps its place and gets the new
element, a new name becomes the last key. -/
def putKey (name : JsString) (index : Nat) : List (JsString × Nat) → List (JsString × Nat)
  | [] => [(name, index)]
  | (k, j) :: rest =>
    if k = name then (k, index) :: rest else (k, j) :: putKey name index rest

/-- The assignment `explanationSpans[name] = element`, the element being the
one of row `index`; `replaced` tells whether the prototype of
`explanationSpans` is an element already. The result is the keys and the flag
after the assignment, or the fault it raises.

* The name `__proto__` is the accessor of `Object.prototype`: the element
  becomes the prototype of `explanationSpans` and no key is added.
* A name that is an own key, and any name while the prototype is
  `Object.prototype`, is written as an own key.
* Otherwise the assignment goes up the prototype chain of the element: the
  setter of an attribute faults, since `explanationSpans` is not an element;
  an attribute without a setter, a lenient attribute and a constant leave
  `explanationSpans` as it is; an operation, or a name the chain does not
  have, gives an own key. -/
def assignSpan (E : Engine) (replaced : Bool) (name : JsString) (index : Nat)
    (spans : List (JsString × Nat)) : Except Thrown (List (JsString × Nat) × Bool) :=
  if name = "__proto__".toList then .ok (spans, true)
  else if !replaced || spans.any (fun p => decide (p.1 = name)) then
    .ok (putKey name index spans, replaced)
  else
    match E.elementMember name with
    | some (.attribute true) => .error (.fault .illegalInvocation)
    | some (.attribute false) => .ok (spans, replaced)
    | some .lenient => .ok (spans, replaced)
    | some .constant => .ok (spans, replaced)
    | some .method => .ok (putKey name index spans, replaced)
    | none => .ok (putKey name index spans, replaced)

/-- The state the first pass builds: `cookiesInfo`, the rows appended to
`cookieList`, `explanationSpans` as the list of its own keys in creation
order, each with the index of the row that holds its element, whether the
prototype of `explanationSpans` has been replaced by an element, and the
fault that ended `forEach`, if one did. -/
structure Rendering where
  cookiesInfo : List CookieInfo
  rows : List Row
  spans : List (JsString × Nat)
  replaced : Bool
  fault : Option Thrown

/-- The object pushed to `cookiesInfo` for a cookie: its name, and its domain
or, when that is empty, `currentDomain`. -/
def infoOf (currentDomain : JsString) (cookie : Cookie) : CookieInfo where
  name := cookie.name
  domain := if cookie.domain.isEmpty then currentDomain else cookie.domain

/-- The list item built for a cookie: the escaped name, the escaped value
after a colon, and the explanation element in its placeholder state. -/
def rowOf (cookie : Cookie) : Row where
  name := escapeString cookie.name
  value := ": ".toList ++ escapeString cookie.value
  explanation := { className := "explanation loading".toList, text := " ".toList }

/-- The body of `cookies.forEach` in the first pass, which no longer runs once
a fault has ended `forEach`: the entry is pushed to `cookiesInfo`, the
element is assigned to `explanationSpans`, and then the row is appended. -/
def renderCookie (E : Engine) (currentDomain : JsString) (r : Rendering) (cookie : Cookie) :
    Rendering :=
  match r.fault with
  | some _ => r
  | none =>
    match assignSpan E r.replaced cookie.name r.rows.length r.spans with
    | .error e =>
      { r with cookiesInfo := r.cookiesInfo ++ [infoOf currentDomain cookie], fault := some e }
    | .ok (spans, replaced) =>
      { cookiesInfo := r.cookiesInfo ++ [infoOf currentDomain cookie]
        rows := r.rows ++ [rowOf cookie]
        spans := spans
        replaced := replaced
        fault := none }

/-- The first pass over the sorted cookies. -/
def firstPass (E : Engine) (currentDomain : JsString) (cookies : List Cookie) : Rendering :=
  cookies.foldl (renderCookie E currentDomain) ⟨[], [], [], false, none⟩

/-! ## The reconciliation pass -/

/-- The number a string of decimal digits denotes. -/
def readDecimal (s : JsString) : Option Nat :=
  s.foldlM (fun n c => (digitVal c).map fun d => n * 10 + d) 0

/-- The array index a property name denotes, when it is one: the canonical
decimal form of an integer below `2 ^ 32 - 1`. -/
def arrayIndex (name : JsString) : Option Nat :=
  match readDecimal name with
  | some n => if decimal n = name ∧ n < 4294967295 then some n else none
  | none => none

/-- The order in which `for (... in explanationSpans)` and `Object.values`
visit the keys: array indices first, in ascending order, then the other names
in creation order. -/
def forInOrder (spans : List (JsString × Nat)) : List (JsString × Nat) :=
  sortBy (fun a b => decide ((arrayIndex a.1).getD 0 ≤ (arrayIndex b.1).getD 0))
      (spans.filter fun p => (arrayIndex p.1).isSome)
    ++ spans.filter fun p => !(arrayIndex p.1).isSome

/-- The value of `explanations[cookieName]` for the value `explanations` that
`getBatchCookieExplanations` returned, when it is not `null`: an own member
first, then what the prototype chain supplies. -/
def lookupExplanation (E : Engine) (explanations : Json) (cookieName : JsString) : JsValue :=
  match explanations with
  | .obj fields =>
    match lookupLast cookieName fields with
    | some v => .json v
    | none => if E.objectProto cookieName then .builtin else .undefined
  | .arr items =>
    match arrayIndex cookieName with
    | some i =>
      match items[i]? with
      | some v => .json v
      | none => .undefined
    | none =>
      if cookieName = "length".toList then .json (.num (JsNumber.ofNat items.length))
      else if E.arrayProto cookieName then .builtin
      else .undefined
  | _ => .undefined

/-- The explanation element of row `index` is replaced. -/
def setSpan : List Row → Nat → Span → List Row
  | [], _, _ => []
  | r :: rest, 0, span => { r with explanation := span } :: rest
  | r :: rest, index + 1, span => r :: setSpan rest index span

/-- The body of the loop `for (const cookieName in explanationSpans)` for one
key: the rows after it, or the fault that `escapeHtml` raises. -/
def reconcileSpan (E : Engine) (explanations : Json) (rows : List Row)
    (key : JsString × Nat) : Except Thrown (List Row) :=
  if explanations.truthy && (lookupExplanation E explanations key.1).truthy then
    match escapeHtml (lookupExplanation E explanations key.1) with
    | .ok text => .ok (setSpan rows key.2 ⟨"explanation".toList, text⟩)
    | .error e => .error e
  else
    match explanations with
    | .null =>
      .ok (setSpan rows key.2 ⟨"explanation error".toList, "Failed to fetch explanations.".toList⟩)
    | _ =>
      .ok (setSpan rows key.2
        ⟨"explanation error".toList, "No explanation received for this cookie.".toList⟩)

/-- The loop over the keys: it stops at the first fault, and the rows are those
reached by then. -/
def reconcileLoop (E : Engine) (explanations : Json) :
    List (JsString × Nat) → List Row → List Row × Option Thrown
  | [], rows => (rows, none)
  | key :: rest, rows =>
    match reconcileSpan E explanations rows key with
    | .ok rows => reconcileLoop E explanations rest rows
    | .error e => (rows, some e)

/-- The statement after the loop: when the call failed, every element gets
the text of the status indicator. -/
def showFailure (statusText : JsString) (explanations : Json) (spans : List (JsString × Nat))
    (rows : List Row) : List Row :=
  match explanations with
  | .null =>
    (forInOrder spans).foldl
      (fun rows key => setSpan rows key.2 ⟨"explanation error".toList, statusText⟩) rows
  | _ => rows

/-- The inherited names the loop visits after the own keys: the members in
the order of the engine, each name once, without the names in `seen`. -/
def unseenMembers : List JsString → List (JsString × Member) → List (JsString × Member)
  | _, [] => []
  | seen, m :: rest =>
    if seen.contains m.1 then unseenMembers seen rest
    else m :: unseenMembers (m.1 :: seen) rest

/-- The names the loop visits after the own keys of `explanationSpans`: none
while the prototype is `Object.prototype`, which has no enumerable member;
the members of the element that no own key hides once the element is the
prototype. -/
def inheritedKeys (E : Engine) (r : Rendering) : List (JsString × Member) :=
  if r.replaced then unseenMembers (r.spans.map fun p => p.1) E.elementMembers else []

/-- The body of the loop for an inherited name: the fault it raises, if any.
Reading an attribute through `explanationSpans` faults. A lenient attribute
reads as `undefined`, and setting `textContent` on it faults once the value
to set has been computed. An operation reads as a function and a constant as
a number: what is set on them reaches no row. -/
def visitInherited (E : Engine) (explanations : Json) (m : JsString × Member) : Option Thrown :=
  let computed : Option Thrown :=
    if explanations.truthy && (lookupExplanation E explanations m.1).truthy then
      match escapeHtml (lookupExplanation E explanations m.1) with
      | .ok _ => none
      | .error e => some e
    else none
  match m.2 with
  | .attribute _ => some (.fault .illegalInvocation)
  | .lenient =>
    match computed with
    | some e => some e
    | none => some (.fault .setOnUndefined)
  | .method => computed
  | .constant => computed

/-- The loop over the inherited names: the first fault, if there is one. -/
def visitInheritedKeys (E : Engine) (explanations : Json) :
    List (JsString × Member) → Option Thrown
  | [] => none
  | m :: rest =>
    match visitInherited E explanations m with
    | some e => some e
    | none => visitInheritedKeys E explanations rest

/-- The update of the list after `getBatchCookieExplanations` has returned
`explanations`: the loop over the own keys, then over the inherited names,
then the statement after the loop. The result is the rows at the end and the
fault that ended the callback early, if one did. -/
def reconcile (E : Engine) (statusText : JsString) (explanations : Json) (r : Rendering) :
    List Row × Option Thrown :=
  match reconcileLoop E explanations (forInOrder r.spans) r.rows with
  | (rows, some e) => (rows, some e)
  | (rows, none) =>
    match visitInheritedKeys E explanations (inheritedKeys E r) with
    | some e => (rows, some e)
    | none => (showFailure statusText explanations r.spans rows, none)

/-- The popup when the callback of `chrome.cookies.getAll` has run. -/
structure Popup where
  /-- The markup set as `cookieList.innerHTML`. -/
  listMarkup : JsString
  /-- The rows appended to `cookieList` after that. -/
  rows : List Row
  /-- The status indicator. -/
  status : Status
  /-- The calls of `fetch`. -/
  requests : List Request
  /-- The fault that left the callback uncaught, if one did. -/
  uncaught : Option Thrown

/-- The callback of `chrome.cookies.getAll`, with the `apiKey` and the
`currentDomain` of the enclosing scope. -/
def showCookies (E : Engine) (fetch : Request → FetchResult) (status : Status)
    (currentDomain apiKey : JsString) (cookies : List Cookie) : Popup :=
  match cookies with
  | [] =>
    ⟨"<li class=\"no-cookies\">No cookies found for this site.</li>".toList, [], status, [], none⟩
  | _ :: _ =>
    let rendering := firstPass E currentDomain (sortByName E cookies)
    match rendering.fault with
    | some e => ⟨[], rendering.rows, status, [], some e⟩
    | none =>
      let outcome := getBatchCookieExplanations E fetch status rendering.cookiesInfo apiKey
      match outcome.result with
      | .error e => ⟨[], rendering.rows, outcome.status, outcome.requests, some e⟩
      | .ok explanations =>
        let final := reconcile E outcome.status.text explanations rendering
        ⟨[], final.1, outcome.status, outcome.requests, final.2⟩

/-! ## An engine for examples -/

/-- Comparison of two strings by code point, as `localeCompare` orders
strings of lower-case ASCII letters. -/
def compareCodePoints : JsString → JsString → Int
  | [], [] => 0
  | [], _ :: _ => -1
  | _ :: _, [] => 1
  | a :: s, b :: t =>
    if a.toNat < b.toNat then -1
    else if b.toNat < a.toNat then 1
    else compareCodePoints s t

/-- The names `Object.prototype` defines. -/
def objectPrototypeNames : List String :=
  ["constructor", "__defineGetter__", "__defineSetter__", "hasOwnProperty",
   "__lookupGetter__", "__lookupSetter__", "isPrototypeOf", "propertyIsEnumerable",
   "toString", "valueOf", "__proto__", "toLocaleString"]

/-- The names `Array.prototype` defines. -/
def arrayPrototypeNames : List String :=
  ["at", "concat", "copyWithin", "fill", "find", "findIndex", "findLast", "findLastIndex",
   "lastIndexOf", "pop", "push", "reverse", "shift", "unshift", "slice", "sort", "splice",
   "includes", "indexOf", "join", "keys", "entries", "values", "forEach", "filter", "flat",
   "flatMap", "map", "every", "some", "reduce", "reduceRight", "toReversed", "toSorted",
   "toSpliced", "with", "toLocaleString", "toString", "constructor"]

/-- Some of the members of a `span` element: attributes of `HTMLElement`,
`Element` and `Node`, with `title` first as in the enumeration of Chrome, the
two lenient event handlers, some operations and a constant. -/
def sampleElementMembers : List (String × Member) :=
  [("title", .attribute true), ("lang", .attribute true), ("translate", .attribute true),
   ("dir", .attribute true), ("hidden", .attribute true), ("accessKey", .attribute true),
   ("draggable", .attribute true), ("spellcheck", .attribute true),
   ("isContentEditable", .attribute false), ("offsetParent", .attribute false),
   ("innerText", .attribute true), ("onclick", .attribute true),
   ("onmouseenter", .lenient), ("onmouseleave", .lenient),
   ("click", .method), ("focus", .method), ("blur", .method),
   ("tagName", .attribute false), ("id", .attribute true), ("className", .attribute true),
   ("innerHTML", .attribute true), ("getAttribute", .method), ("setAttribute", .method),
   ("remove", .method), ("ELEMENT_NODE", .constant), ("nodeName", .attribute false),
   ("textContent", .attribute true), ("appendChild", .method),
   ("addEventListener", .method)]

/-- An engine on which the model is evaluated at examples. The messages of
the faults other than `jsonSyntax` and the prototype members are those of
Chrome. The other parts stand in for the platform and are exact on the inputs
of the examples only: strings are compared by code point; a number is written
as the digits of its integer value, which is the text of the platform for an
integer below `2 ^ 53`; the message of a JSON syntax error, which in Chrome
names the offending token, is a fixed text followed by the input; and of the
members of an element only those of `sampleElementMembers` are listed. -/
def sampleEngine : Engine where
  localeCompare := compareCodePoints
  numberToString := fun n =>
    if n.isZero then ['0']
    else (if n.neg then ['-'] else []) ++ decimal (n.mant * 10 ^ n.exp.toNat)
  faultMessage := fun
    | .notAFunction expr => expr ++ " is not a function".toList
    | .notPrimitive => "Cannot convert object to primitive value".toList
    | .jsonSyntax text => "Unexpected token in JSON: ".toList ++ text
    | .illegalInvocation => "Illegal invocation".toList
    | .setOnUndefined => "Cannot set properties of undefined (setting 'textContent')".toList
  objectProto := fun name => objectPrototypeNames.any fun n => n.toList == name
  arrayProto := fun name =>
    (arrayPrototypeNames ++ objectPrototypeNames).any fun n => n.toList == name
  elementMembers := sampleElementMembers.map fun m => (m.1.toList, m.2)

/-! ## The invariant of `explanationSpans` -/

/-- What holds of `explanationSpans` when the cookies named `names` have been
rendered, in this order: the keys are distinct, every key is the name of the
row it points to and of no later row, and every name is a key. -/
def SpansOk (names : List JsString) (spans : List (JsString × Nat)) : Prop :=
  (spans.map Prod.fst).Nodup
  ∧ (∀ k j, (k, j) ∈ spans → names[j]? = some k ∧ ∀ j', j < j' → names[j']? ≠ some k)
  ∧ (∀ k, k ∈ names → ∃ j, (k, j) ∈ spans)

/-! ## Theorems -/

theorem replaceAllChar_flatMap (c : Char) (rep : JsString) (f : Char → JsString)
    (s : JsString) :
    replaceAllChar c rep (s.flatMap f) = s.flatMap fun x => replaceAllChar c rep (f x) := by
  induction s with
  | nil => rfl
  | cons a t ih =>
    simp only [List.flatMap_cons]
    rw [← ih]
    simp [replaceAllChar, List.flatMap_append]

theorem escape_pointwise (x : Char) :
    escapeString [x] = escapeChar x := by
  unfold escapeChar escapeString
  by_cases h1 : x = '&'
  · subst h1; decide
  by_cases h2 : x = '<'
  · subst h2; decide
  by_cases h3 : x = '>'
  · subst h3; decide
  by_cases h4 : x = dquote
  · subst h4; decide
  by_cases h5 : x = squote
  · subst h5; decide
  simp [replaceAllChar, h1, h2, h3, h4, h5]

theorem escapeChar_clean (x : Char) :
    ∀ c ∈ escapeChar x, c ≠ '<' ∧ c ≠ '>' ∧ c ≠ dquote ∧ c ≠ squote := by
  unfold escapeChar
  by_cases h1 : x = '&'
  · subst h1; decide
  by_cases h2 : x = '<'
  · subst h2; decide
  by_cases h3 : x = '>'
  · subst h3; decide
  by_cases h4 : x = dquote
  · subst h4; decide
  by_cases h5 : x = squote
  · subst h5; decide
  simp [h1, h2, h3, h4, h5]

/-- Claim C8: for every string `s`, `escapeHtml(s)` is the character-by-character
substitution of `s` (`&`, `<`, `>`, `"` and the apostrophe become their
entities, every other character is kept); the output holds none of `<`, `>`,
`"` and the apostrophe; and the empty string is escaped to the empty string. -/
theorem escapeHtml_substitutes (s : JsString) :
    escapeHtml (.json (.str s)) = .ok (s.flatMap escapeChar)
    ∧ (∀ out, escapeHtml (.json (.str s)) = .ok out →
        ∀ c ∈ out, c ≠ '<' ∧ c ≠ '>' ∧ c ≠ dquote ∧ c ≠ squote)
    ∧ escapeHtml (.json (.str [])) = .ok [] := by
  have key : escapeHtml (.json (.str s)) = .ok (s.flatMap escapeChar) := by
    cases s with
    | nil => rfl
    | cons a t =>
      have hflat : (a :: t) = (a :: t).flatMap fun x => [x] := by simp
      simp only [escapeHtml, JsValue.truthy, Json.truthy, List.isEmpty_cons, Bool.not_false,
        Bool.not_true, Bool.false_eq_true, if_false]
      congr 1
      conv_lhs => rw [hflat]
      unfold escapeString
      simp only [replaceAllChar_flatMap]
      exact List.flatMap_congr fun x _ => escape_pointwise x
  refine ⟨key, ?_, rfl⟩
  intro out hout c hc
  rw [key] at hout
  cases hout
  obtain ⟨x, _, hx⟩ := List.mem_flatMap.mp hc
  exact escapeChar_clean x c hx

/-! ### The code fence -/

theorem dropWhile_append_of_mem {α} (p : α → Bool) (l t : List α) (h : ∃ x ∈ l, p x = false) :
    (l ++ t).dropWhile p = l.dropWhile p ++ t := by
  induction l with
  | nil => simp at h
  | cons a l ih =>
    by_cases ha : p a = true
    · simp only [List.cons_append, List.dropWhile_cons, ha, if_true]
      apply ih
      obtain ⟨x, hx, hpx⟩ := h
      rcases List.mem_cons.mp hx with rfl | hx
      · simp [ha] at hpx
      · exact ⟨x, hx, hpx⟩
    · simp [List.dropWhile_cons, ha]

theorem lexStart_space (out : List Token) (c : Char) (h : isJsonSpace c = true) :
    lexStart out c = some (.idle, out) := by
  simp [lexStart, h]

theorem lexStart_whiteSpace (out : List Token) (c : Char) (hw : isWhiteSpace c = true)
    (hj : isJsonSpace c = false) : lexStart out c = none := by
  have ne : ∀ x : Char, isWhiteSpace x = false → c ≠ x := by
    intro x hx h
    subst h
    simp [hx] at hw
  have hd : digitVal c = none := by
    unfold digitVal
    simp only [isWhiteSpace, Bool.or_eq_true, Bool.and_eq_true, decide_eq_true_eq, beq_iff_eq] at hw
    split
    · omega
    · rfl
  unfold lexStart
  rw [if_neg (by simp [hj]), if_neg (ne _ (by decide)), if_neg (ne _ (by decide)),
    if_neg (ne _ (by decide)), if_neg (ne _ (by decide)), if_neg (ne _ (by decide)),
    if_neg (ne _ (by decide)), if_neg (ne _ (by decide)), if_neg (ne _ (by decide)),
    if_neg (ne _ (by decide)), if_neg (ne _ (by decide)), if_neg (ne _ (by decide)),
    if_neg (ne _ (by decide)), hd]

theorem foldlM_lexStep_spaces (out : List Token) (s : JsString) :
    s.foldlM lexStep (LexState.idle, out)
      = (s.dropWhile isJsonSpace).foldlM lexStep (LexState.idle, out) := by
  induction s with
  | nil => rfl
  | cons c s ih =>
    by_cases hc : isJsonSpace c = true
    · simp only [List.dropWhile_cons, hc, if_true, List.foldlM_cons, lexStep, lexStart_space out c hc]
      simpa using ih
    · simp [List.dropWhile_cons, hc]

theorem dropWhile_whiteSpace_of_tokenize (s : JsString) (toks : List Token) (h : tokenize s = some toks)
    (hne : toks ≠ []) :
    s.dropWhile isWhiteSpace = s.dropWhile isJsonSpace ∧ ∃ x ∈ s, isWhiteSpace x = false := by
  induction s with
  | nil =>
    simp [tokenize, lexFinish] at h
    exact absurd h hne
  | cons c s ih =>
    by_cases hj : isJsonSpace c = true
    · have hw : isWhiteSpace c = true := by
        simp only [isJsonSpace, Bool.or_eq_true, beq_iff_eq] at hj
        simp only [isWhiteSpace, Bool.or_eq_true, Bool.and_eq_true, decide_eq_true_eq, beq_iff_eq]
        omega
      have h2 : tokenize s = some toks := by
        simpa [tokenize, List.foldlM_cons, lexStep, lexStart_space [] c hj] using h
      obtain ⟨h3, x, hx, hpx⟩ := ih h2
      refine ⟨by simp [List.dropWhile_cons, hj, hw, h3], x, List.mem_cons_of_mem _ hx, hpx⟩
    · have hj2 : isJsonSpace c = false := by simpa using hj
      by_cases hw : isWhiteSpace c = true
      · simp [tokenize, List.foldlM_cons, lexStep, lexStart_whiteSpace [] c hw hj2] at h
      · have hw2 : isWhiteSpace c = false := by simpa using hw
        exact ⟨by simp [List.dropWhile_cons, hj2, hw2], c, List.mem_cons_self _ _, hw2⟩

theorem lexStep_newline (st : LexState × List Token) (toks : List Token)
    (h : lexFinish st = some toks) : (lexStep st '\n' >>= lexFinish) = some toks := by
  obtain ⟨st, out⟩ := st
  cases st with
  | idle => simpa [lexStep, lexStart, isJsonSpace, lexFinish] using h
  | number phase n =>
    cases phase <;> simp [lexFinish] at h <;>
      simp [lexStep, lexNumber, digitVal, lexStart, isJsonSpace, lexFinish, h]
  | _ => simp [lexFinish] at h

theorem tokenize_append_newline (s : JsString) (toks : List Token) (h : tokenize s = some toks) :
    tokenize (s ++ ['\n']) = some toks := by
  unfold tokenize at h ⊢
  rw [List.foldlM_append]
  cases hs : s.foldlM lexStep (LexState.idle, []) with
  | none => simp [hs] at h
  | some st =>
    rw [hs] at h
    simp only [Option.bind_eq_bind, Option.some_bind, List.foldlM_cons, List.foldlM_nil] at h ⊢
    have := lexStep_newline st toks h
    cases h2 : lexStep st '\n' with
    | none => simp [h2] at this
    | some st2 => simpa [h2] using this

theorem trim_of_ends (a b : Char) (m : JsString) (ha : isWhiteSpace a = false)
    (hb : isWhiteSpace b = false) : trim (a :: m ++ [b]) = a :: m ++ [b] := by
  have h1 : (a :: m ++ [b]).dropWhile isWhiteSpace = a :: m ++ [b] := by
    simp [List.dropWhile_cons, ha]
  have h2 : (a :: m ++ [b]).reverse = b :: (a :: m).reverse := by simp
  unfold trim
  rw [h1, h2, List.dropWhile_cons, hb]
  simp

theorem dropLiteral_append (lit s : JsString) : dropLiteral lit (lit ++ s) = some s := by
  induction lit with
  | nil => cases s <;> rfl
  | cons a lit ih => simp [dropLiteral, ih]

theorem cleanJsonString_fenced (J : JsString) (h : ∃ x ∈ J, isWhiteSpace x = false) :
    cleanJsonString (fenceOpen ++ ['\n'] ++ J ++ ['\n'] ++ fenceClose)
      = J.dropWhile isWhiteSpace ++ ['\n'] := by
  have hshape : fenceOpen ++ ['\n'] ++ J ++ ['\n'] ++ fenceClose
      = backtick :: ([backtick, backtick, 'j', 's', 'o', 'n', '\n'] ++ J
          ++ ['\n', backtick, backtick]) ++ [backtick] := by
    simp [fenceOpen, fenceClose]
  have htrim : trim (fenceOpen ++ ['\n'] ++ J ++ ['\n'] ++ fenceClose)
      = fenceOpen ++ (['\n'] ++ J ++ ['\n'] ++ fenceClose) := by
    rw [hshape, trim_of_ends _ _ _ (by decide) (by decide)]
    simp [fenceOpen, fenceClose]
  have hlead : removeLeadingFence (fenceOpen ++ (['\n'] ++ J ++ ['\n'] ++ fenceClose))
      = J.dropWhile isWhiteSpace ++ (['\n'] ++ fenceClose) := by
    unfold removeLeadingFence
    rw [dropLiteral_append]
    have hn : isWhiteSpace '\n' = true := by decide
    simp only [List.singleton_append, List.cons_append, List.dropWhile_cons, hn, if_true,
      List.append_assoc]
    exact dropWhile_append_of_mem _ _ _ h
  have htrail : removeTrailingFence (J.dropWhile isWhiteSpace ++ (['\n'] ++ fenceClose))
      = J.dropWhile isWhiteSpace ++ ['\n'] := by
    unfold removeTrailingFence
    have hrev : (J.dropWhile isWhiteSpace ++ (['\n'] ++ fenceClose)).reverse
        = fenceClose ++ ('\n' :: (J.dropWhile isWhiteSpace).reverse) := by
      simp [fenceClose]
    rw [hrev, dropLiteral_append]
    simp
  unfold cleanJsonString
  rw [htrim, hlead, htrail]

theorem jsonParse_tokens_ne_nil (s : JsString) (v : Json) (h : jsonParse s = some v) :
    ∃ toks, tokenize s = some toks ∧ toks ≠ [] := by
  unfold jsonParse at h
  cases ht : tokenize s with
  | none => simp [ht] at h
  | some toks =>
    refine ⟨toks, rfl, ?_⟩
    rintro rfl
    simp [ht, parseFinish] at h

theorem tokenize_fenced (J : JsString) (toks : List Token) (h : tokenize J = some toks)
    (hne : toks ≠ []) :
    tokenize (cleanJsonString (fenceOpen ++ ['\n'] ++ J ++ ['\n'] ++ fenceClose)) = some toks := by
  obtain ⟨hdrop, hmem⟩ := dropWhile_whiteSpace_of_tokenize J toks h hne
  rw [cleanJsonString_fenced J hmem, hdrop]
  apply tokenize_append_newline
  rw [← h]
  unfold tokenize
  rw [foldlM_lexStep_spaces [] J]


/-- Claim C4: fence stripping is transparent for a fenced JSON object. When the
text `J` parses to an object, the response text made of the opening marker,
a newline, `J`, a newline and the closing marker is cleaned to a text that
parses to the same object. -/
theorem fenced_object_parses (J : JsString) (fields : List (JsString × Json))
    (h : jsonParse J = some (.obj fields)) :
    jsonParse (cleanJsonString (fenceOpen ++ ['\n'] ++ J ++ ['\n'] ++ fenceClose))
      = some (.obj fields) := by
  obtain ⟨toks, ht, hne⟩ := jsonParse_tokens_ne_nil J _ h
  have := tokenize_fenced J toks ht hne
  unfold jsonParse at h ⊢
  rw [this, ← ht]
  exact h

/-- The example of claim C4: the fenced text of the object with the one member
`a`, whose value is the string `x`, parses to that object. -/
theorem fenced_object_parses_witness :
    jsonParse "\x7b\"a\":\"x\"\x7d".toList = some (.obj [("a".toList, .str "x".toList)])
    ∧ jsonParse (cleanJsonString "```json\n\x7b\"a\":\"x\"\x7d\n```".toList)
        = some (.obj [("a".toList, .str "x".toList)]) :=
  ⟨rfl, fenced_object_parses "\x7b\"a\":\"x\"\x7d".toList _ rfl⟩

/-! ### The request and its outcomes -/

/-- The text `[1,2]` is valid JSON and parses to an array of two numbers. -/
theorem jsonParse_array_example :
    jsonParse "[1,2]".toList = some (.arr [.num ⟨false, 1, 0⟩, .num ⟨false, 2, 0⟩]) := rfl

/-- Claim C1, at the failing input: a successful response whose model text is
`[1,2]`, valid JSON that is not an object, is not treated as malformed. The
call returns the array itself, not `null`, and reports success in the status
indicator. -/
theorem array_response_is_returned (E : Engine) (status : Status) :
    (getBatchCookieExplanations E
        (fun _ => .resolved ⟨200, "OK".toList, .ok (candidateBody "[1,2]".toList)⟩) status
        [⟨"sid".toList, "example.com".toList⟩] "KEY".toList).result
      = .ok (.arr [.num ⟨false, 1, 0⟩, .num ⟨false, 2, 0⟩])
    ∧ (getBatchCookieExplanations E
        (fun _ => .resolved ⟨200, "OK".toList, .ok (candidateBody "[1,2]".toList)⟩) status
        [⟨"sid".toList, "example.com".toList⟩] "KEY".toList).status.text
      = "Received explanations.".toList :=
  ⟨rfl, rfl⟩

/-- Claim C3: with a non-empty credential and an empty cookie list the call
returns the empty map, calls `fetch` not at all, leaves the status indicator
as it was and sets no timer; a request that fails returns `null`, and the
empty map is not `null`. -/
theorem empty_list_is_noop (E : Engine) (fetch : Request → FetchResult) (status : Status)
    (apiKey : JsString) (hkey : apiKey ≠ []) :
    (getBatchCookieExplanations E fetch status [] apiKey).result = .ok (.obj [])
    ∧ (getBatchCookieExplanations E fetch status [] apiKey).requests = []
    ∧ (getBatchCookieExplanations E fetch status [] apiKey).status = status
    ∧ (getBatchCookieExplanations E fetch status [] apiKey).hideAfter = none
    ∧ (∀ (e : Thrown) (c : CookieInfo) (cs : List CookieInfo),
        (getBatchCookieExplanations E (fun _ => .rejected e) status (c :: cs) apiKey).result
          = .ok .null)
    ∧ (Except.ok (Json.obj []) : Except Thrown Json) ≠ .ok .null := by
  cases apiKey with
  | nil => exact absurd rfl hkey
  | cons a t =>
    refine ⟨rfl, rfl, rfl, rfl, fun e c cs => rfl, ?_⟩
    intro hh
    cases hh

/-- Claim C3 at a concrete credential. -/
theorem empty_list_is_noop_witness :
    "KEY".toList ≠ []
    ∧ (getBatchCookieExplanations sampleEngine (fun _ => .rejected (.error [])) ⟨[], [], []⟩ []
        "KEY".toList).requests = [] :=
  ⟨by decide,
    (empty_list_is_noop sampleEngine (fun _ => .rejected (.error [])) ⟨[], [], []⟩ "KEY".toList
      (by decide)).2.1⟩

theorem explain_failed_response (E : Engine) (status : Status) (c : CookieInfo)
    (cs : List CookieInfo) (apiKey : JsString) (r : Response) (hkey : apiKey ≠ [])
    (hok : r.ok = false) :
    (getBatchCookieExplanations E (fun _ => .resolved r) status (c :: cs) apiKey).result
        = .ok .null
    ∧ ∀ text, Json.toText E (errorDetail r) = .ok text →
        (getBatchCookieExplanations E (fun _ => .resolved r) status (c :: cs) apiKey).status.text
          = "Error: API Error ".toList ++ decimal r.status ++ ": ".toList ++ text := by
  cases apiKey with
  | nil => exact absurd rfl hkey
  | cons a t =>
    have hreq : ∀ text, Json.toText E (errorDetail r) = .ok text →
        requestExplanations E (.resolved r)
          = .error (.error ("API Error ".toList ++ decimal r.status ++ ": ".toList ++ text)) := by
      intro text ht
      simp [requestExplanations, hok, ht]
    have hbad : ∃ e, requestExplanations E (.resolved r) = .error e := by
      cases ht : Json.toText E (errorDetail r) with
      | ok text => exact ⟨_, hreq text ht⟩
      | error e => exact ⟨e, by simp [requestExplanations, hok, ht]⟩
    constructor
    · obtain ⟨e, he⟩ := hbad
      simp [getBatchCookieExplanations, he]
    · intro text ht
      simp [getBatchCookieExplanations, hreq text ht, Engine.message]

/-- Claim C6, as amended: for a non-empty credential, a non-empty cookie list
and a response that is not `ok`, whatever its body, the call returns `null`;
and when the detail of the error (the `message` of the error body if it is
truthy, else the status text, else the fixed text) converts to a string, the
text of the status indicator contains the decimal status code. -/
theorem failed_response_reports_status (E : Engine) (status : Status)
    (cookiesInfo : List CookieInfo) (apiKey : JsString) (r : Response)
    (hkey : apiKey ≠ []) (hne : cookiesInfo ≠ []) (hok : r.ok = false) :
    (getBatchCookieExplanations E (fun _ => .resolved r) status cookiesInfo apiKey).result
        = .ok .null
    ∧ ((∃ text, Json.toText E (errorDetail r) = .ok text) →
        decimal r.status <:+:
          (getBatchCookieExplanations E (fun _ => .resolved r) status cookiesInfo
            apiKey).status.text) := by
  cases cookiesInfo with
  | nil => exact absurd rfl hne
  | cons c cs =>
    obtain ⟨h1, h2⟩ := explain_failed_response E status c cs apiKey r hkey hok
    refine ⟨h1, ?_⟩
    rintro ⟨text, ht⟩
    rw [h2 text ht]
    exact ⟨"Error: API Error ".toList, ": ".toList ++ text, by simp⟩

/-- Claim C6, as amended, at a response with status 500 whose error body
carries the message `boom`: the status text names the code. -/
theorem failed_response_reports_status_witness :
    decimal 500 <:+:
      (getBatchCookieExplanations sampleEngine
        (fun _ => .resolved ⟨500, "Internal Server Error".toList,
          .ok (.obj [("error".toList, .obj [("message".toList, .str "boom".toList)])])⟩)
        ⟨[], [], []⟩ [⟨"sid".toList, "example.com".toList⟩] "KEY".toList).status.text :=
  (failed_response_reports_status sampleEngine ⟨[], [], []⟩
    [⟨"sid".toList, "example.com".toList⟩] "KEY".toList
    ⟨500, "Internal Server Error".toList,
      .ok (.obj [("error".toList, .obj [("message".toList, .str "boom".toList)])])⟩
    (by decide) (by decide) (by decide)).2 ⟨"boom".toList, rfl⟩

/-- Claim C6 fails as stated: a response with status 500 whose error body has
for `message` an object with an own member `toString`. The conversion of the
message to a string faults inside the `try` block, the `catch` block writes
the message of that fault, and the status text does not contain `500`. -/
theorem failed_response_status_lost :
    (getBatchCookieExplanations sampleEngine
        (fun _ => .resolved ⟨500, "Internal Server Error".toList,
          .ok (.obj [("error".toList,
            .obj [("message".toList, .obj [("toString".toList, .num ⟨false, 1, 0⟩)])])])⟩)
        ⟨[], [], []⟩ [⟨"sid".toList, "example.com".toList⟩] "KEY".toList).status.text
      = "Error: Cannot convert object to primitive value".toList
    ∧ ¬ (decimal 500 <:+:
      (getBatchCookieExplanations sampleEngine
        (fun _ => .resolved ⟨500, "Internal Server Error".toList,
          .ok (.obj [("error".toList,
            .obj [("message".toList, .obj [("toString".toList, .num ⟨false, 1, 0⟩)])])])⟩)
        ⟨[], [], []⟩ [⟨"sid".toList, "example.com".toList⟩] "KEY".toList).status.text) := by
  constructor <;> decide

/-- The call never throws when it has a credential and a cookie: every
failure of the request ends in the `catch` block, which returns `null`. -/
theorem explain_returns (E : Engine) (fetch : Request → FetchResult) (status : Status)
    (c : CookieInfo) (cs : List CookieInfo) (apiKey : JsString) (hkey : apiKey ≠ []) :
    ∃ v, (getBatchCookieExplanations E fetch status (c :: cs) apiKey).result = .ok v := by
  cases apiKey with
  | nil => exact absurd rfl hkey
  | cons a t =>
    simp only [getBatchCookieExplanations, List.isEmpty_cons, Bool.false_eq_true, if_false]
    split
    · exact ⟨_, rfl⟩
    · exact ⟨_, rfl⟩

/-! ### Sorting and the first pass -/

theorem renderCookie_plain (E : Engine) (d : JsString) (r : Rendering) (c : Cookie)
    (hname : c.name ≠ "__proto__".toList) (hr : r.replaced = false) (hf : r.fault = none) :
    renderCookie E d r c
      = ⟨r.cookiesInfo ++ [infoOf d c], r.rows ++ [rowOf c],
          putKey c.name r.rows.length r.spans, false, none⟩ := by
  unfold renderCookie assignSpan
  rw [hf, hr, if_neg hname]
  rfl

theorem foldl_renderCookie_plain (E : Engine) (d : JsString) (cs : List Cookie) (r : Rendering)
    (hplain : ∀ c ∈ cs, c.name ≠ "__proto__".toList) (hr : r.replaced = false)
    (hf : r.fault = none) :
    (cs.foldl (renderCookie E d) r).cookiesInfo = r.cookiesInfo ++ cs.map (infoOf d)
    ∧ (cs.foldl (renderCookie E d) r).rows = r.rows ++ cs.map rowOf
    ∧ (cs.foldl (renderCookie E d) r).replaced = false
    ∧ (cs.foldl (renderCookie E d) r).fault = none := by
  induction cs generalizing r with
  | nil => simp [hr, hf]
  | cons c cs ih =>
    have hc := hplain c (List.mem_cons_self _ _)
    have hrest : ∀ x ∈ cs, x.name ≠ "__proto__".toList :=
      fun x hx => hplain x (List.mem_cons_of_mem _ hx)
    simp only [List.foldl_cons, renderCookie_plain E d r c hc hr hf]
    obtain ⟨h1, h2, h3, h4⟩ := ih ⟨r.cookiesInfo ++ [infoOf d c], r.rows ++ [rowOf c],
      putKey c.name r.rows.length r.spans, false, none⟩ hrest rfl rfl
    exact ⟨by simp [h1], by simp [h2], h3, h4⟩

theorem firstPass_plain (E : Engine) (d : JsString) (cs : List Cookie)
    (hplain : ∀ c ∈ cs, c.name ≠ "__proto__".toList) :
    (firstPass E d cs).cookiesInfo = cs.map (infoOf d)
    ∧ (firstPass E d cs).rows = cs.map rowOf
    ∧ (firstPass E d cs).replaced = false
    ∧ (firstPass E d cs).fault = none := by
  simpa [firstPass] using foldl_renderCookie_plain E d cs ⟨[], [], [], false, none⟩ hplain rfl rfl

theorem renderCookie_agree (E : Engine) (d : JsString) (r r' : Rendering) (c c' : Cookie)
    (hname : c.name = c'.name) (hdom : c.domain = c'.domain)
    (h : r.cookiesInfo = r'.cookiesInfo ∧ r.spans = r'.spans ∧ r.replaced = r'.replaced
      ∧ r.fault = r'.fault ∧ r.rows.length = r'.rows.length) :
    (renderCookie E d r c).cookiesInfo = (renderCookie E d r' c').cookiesInfo
    ∧ (renderCookie E d r c).spans = (renderCookie E d r' c').spans
    ∧ (renderCookie E d r c).replaced = (renderCookie E d r' c').replaced
    ∧ (renderCookie E d r c).fault = (renderCookie E d r' c').fault
    ∧ (renderCookie E d r c).rows.length = (renderCookie E d r' c').rows.length := by
  obtain ⟨h1, h2, h3, h4, h5⟩ := h
  have hinfo : infoOf d c = infoOf d c' := by simp [infoOf, hname, hdom]
  unfold renderCookie
  rw [← h4]
  cases hf : r.fault with
  | some e => exact ⟨h1, h2, h3, by rw [← h4, hf], h5⟩
  | none =>
    simp only
    rw [← h3, ← h2, ← h5, ← hname, ← h1, ← hinfo]
    cases assignSpan E r.replaced c.name r.rows.length r.spans with
    | error e => simp [h2, h3, h5]
    | ok p => simp [h5]

theorem foldl_renderCookie_agree (E : Engine) (d : JsString) (cs cs' : List Cookie)
    (r r' : Rendering)
    (hcs : cs.map (fun c => (c.name, c.domain)) = cs'.map (fun c => (c.name, c.domain)))
    (h : r.cookiesInfo = r'.cookiesInfo ∧ r.spans = r'.spans ∧ r.replaced = r'.replaced
      ∧ r.fault = r'.fault ∧ r.rows.length = r'.rows.length) :
    (cs.foldl (renderCookie E d) r).cookiesInfo = (cs'.foldl (renderCookie E d) r').cookiesInfo
    ∧ (cs.foldl (renderCookie E d) r).fault = (cs'.foldl (renderCookie E d) r').fault := by
  induction cs generalizing cs' r r' with
  | nil =>
    cases cs' with
    | nil => exact ⟨h.1, h.2.2.2.1⟩
    | cons c' cs' => simp at hcs
  | cons c cs ih =>
    cases cs' with
    | nil => simp at hcs
    | cons c' cs' =>
      simp only [List.map_cons, List.cons.injEq, Prod.mk.injEq] at hcs
      obtain ⟨⟨hname, hdom⟩, hrest⟩ := hcs
      simp only [List.foldl_cons]
      exact ih cs' _ _ hrest (renderCookie_agree E d r r' c c' hname hdom h)

theorem map_insertBy {α β : Type} (f : α → β) (le : α → α → Bool) (le' : β → β → Bool)
    (h : ∀ a b, le a b = le' (f a) (f b)) (x : α) (l : List α) :
    (insertBy le x l).map f = insertBy le' (f x) (l.map f) := by
  induction l with
  | nil => rfl
  | cons y l ih =>
    simp only [insertBy, List.map_cons, h x y]
    split
    · rfl
    · simp [ih]

theorem map_sortBy {α β : Type} (f : α → β) (le : α → α → Bool) (le' : β → β → Bool)
    (h : ∀ a b, le a b = le' (f a) (f b)) (l : List α) :
    (sortBy le l).map f = sortBy le' (l.map f) := by
  induction l with
  | nil => rfl
  | cons x l ih => simp only [sortBy, List.map_cons, map_insertBy f le le' h, ih]

theorem insertBy_perm {α : Type} (le : α → α → Bool) (x : α) (l : List α) :
    (insertBy le x l).Perm (x :: l) := by
  induction l with
  | nil => exact List.Perm.refl _
  | cons y l ih =>
    simp only [insertBy]
    split
    · exact List.Perm.refl _
    · exact (List.Perm.cons y ih).trans (List.Perm.swap x y l)

theorem sortBy_perm {α : Type} (le : α → α → Bool) (l : List α) : (sortBy le l).Perm l := by
  induction l with
  | nil => exact List.Perm.refl _
  | cons x l ih => exact (insertBy_perm le x _).trans (List.Perm.cons x ih)

theorem insertBy_pairwise {α : Type} (le : α → α → Bool)
    (total : ∀ a b, le a b = true ∨ le b a = true)
    (trans : ∀ a b c, le a b = true → le b c = true → le a c = true)
    (x : α) (l : List α) (h : l.Pairwise fun a b => le a b = true) :
    (insertBy le x l).Pairwise fun a b => le a b = true := by
  induction l with
  | nil => simp [insertBy]
  | cons y l ih =>
    obtain ⟨hy, hl⟩ := List.pairwise_cons.mp h
    simp only [insertBy]
    split
    · rename_i hxy
      refine List.pairwise_cons.mpr ⟨?_, h⟩
      intro z hz
      rcases List.mem_cons.mp hz with rfl | hz
      · exact hxy
      · exact trans _ _ _ hxy (hy z hz)
    · rename_i hxy
      have hyx : le y x = true := by
        rcases total x y with h1 | h1
        · exact absurd h1 hxy
        · exact h1
      refine List.pairwise_cons.mpr ⟨?_, ih hl⟩
      intro z hz
      rcases List.mem_cons.mp ((insertBy_perm le x l).subset hz) with rfl | hz
      · exact hyx
      · exact hy z hz

theorem sortBy_pairwise {α : Type} (le : α → α → Bool)
    (total : ∀ a b, le a b = true ∨ le b a = true)
    (trans : ∀ a b c, le a b = true → le b c = true → le a c = true)
    (l : List α) : (sortBy le l).Pairwise fun a b => le a b = true := by
  induction l with
  | nil => simp [sortBy]
  | cons x l ih => exact insertBy_pairwise le total trans x _ ih

theorem requests_of_explain (E : Engine) (fetch : Request → FetchResult) (status : Status)
    (infos : List CookieInfo) (apiKey : JsString) :
    (getBatchCookieExplanations E fetch status infos apiKey).requests
      = if apiKey.isEmpty then []
        else match infos with
          | [] => []
          | first :: _ => [buildRequest first.name infos apiKey] := by
  unfold getBatchCookieExplanations
  split
  · rfl
  · cases infos with
    | nil => rfl
    | cons c cs =>
      simp only
      split <;> rfl

theorem requests_of_showCookies (E : Engine) (fetch : Request → FetchResult) (status : Status)
    (d apiKey : JsString) (cookies : List Cookie) :
    (showCookies E fetch status d apiKey cookies).requests
      = match (firstPass E d (sortByName E cookies)).fault with
        | some _ => []
        | none => (getBatchCookieExplanations E fetch status
            (firstPass E d (sortByName E cookies)).cookiesInfo apiKey).requests := by
  cases cookies with
  | nil => simp [showCookies, sortByName, sortBy, firstPass, requests_of_explain]
  | cons c cs =>
    cases hf : (firstPass E d (sortByName E (c :: cs))).fault with
    | some e => simp only [showCookies, hf]
    | none =>
      simp only [showCookies, hf]
      split <;> rfl

theorem sortByName_perm (E : Engine) (cookies : List Cookie) :
    (sortByName E cookies).Perm cookies := sortBy_perm _ cookies

theorem sorted_passes_agree (E : Engine) (d : JsString) (cookies cookies' : List Cookie)
    (h : cookies.map (fun c => (c.name, c.domain)) = cookies'.map (fun c => (c.name, c.domain))) :
    (firstPass E d (sortByName E cookies)).cookiesInfo
        = (firstPass E d (sortByName E cookies')).cookiesInfo
    ∧ (firstPass E d (sortByName E cookies)).fault
        = (firstPass E d (sortByName E cookies')).fault := by
  have hsort : ∀ cs : List Cookie, (sortByName E cs).map (fun c => (c.name, c.domain))
      = sortBy (fun a b : JsString × JsString => decide (E.localeCompare a.1 b.1 ≤ 0))
          (cs.map fun c => (c.name, c.domain)) := by
    intro cs
    exact map_sortBy (fun c : Cookie => (c.name, c.domain))
      (fun a b => decide (E.localeCompare a.name b.name ≤ 0))
      (fun a b => decide (E.localeCompare a.1 b.1 ≤ 0)) (fun _ _ => rfl) cs
  exact foldl_renderCookie_agree E d _ _ _ _ (by rw [hsort, hsort, h])
    ⟨rfl, rfl, rfl, rfl, rfl⟩

/-- Claim C5: cookie values are never sent. Two cookie lists that agree
position by position on name and domain, whatever their values, lead with
the same credential to the same calls of `fetch`: the same address and the
same body. -/
theorem request_ignores_values (E : Engine) (fetch : Request → FetchResult) (status : Status)
    (currentDomain apiKey : JsString) (cookies cookies' : List Cookie)
    (h : cookies.map (fun c => (c.name, c.domain)) = cookies'.map (fun c => (c.name, c.domain))) :
    (showCookies E fetch status currentDomain apiKey cookies).requests
      = (showCookies E fetch status currentDomain apiKey cookies').requests := by
  obtain ⟨h1, h2⟩ := sorted_passes_agree E currentDomain cookies cookies' h
  rw [requests_of_showCookies, requests_of_showCookies, requests_of_explain,
    requests_of_explain, h1, h2]

/-- Claim C5 at two lists of two cookies that differ in both values: one
request is sent, and it is the same for both. -/
theorem request_ignores_values_witness :
    (showCookies sampleEngine (fun _ => .rejected (.error [])) ⟨[], [], []⟩
        "example.com".toList "KEY".toList
        [⟨"b".toList, [], "1".toList⟩, ⟨"a".toList, "x.org".toList, "2".toList⟩]).requests
      = (showCookies sampleEngine (fun _ => .rejected (.error [])) ⟨[], [], []⟩
        "example.com".toList "KEY".toList
        [⟨"b".toList, [], "secret".toList⟩, ⟨"a".toList, "x.org".toList, "other".toList⟩]).requests
    ∧ (showCookies sampleEngine (fun _ => .rejected (.error [])) ⟨[], [], []⟩
        "example.com".toList "KEY".toList
        [⟨"b".toList, [], "1".toList⟩, ⟨"a".toList, "x.org".toList, "2".toList⟩]).requests.length
      = 1 :=
  ⟨request_ignores_values sampleEngine _ ⟨[], [], []⟩ _ _ _ _ (by decide), by decide⟩

theorem setSpan_texts (rows : List Row) (i : Nat) (span : Span) :
    (setSpan rows i span).map (fun r => (r.name, r.value)) = rows.map fun r => (r.name, r.value) := by
  induction rows generalizing i with
  | nil => rfl
  | cons r rows ih =>
    cases i with
    | zero => rfl
    | succ i => simp [setSpan, ih]

theorem reconcileSpan_texts (E : Engine) (explanations : Json) (rows rows' : List Row)
    (key : JsString × Nat) (h : reconcileSpan E explanations rows key = .ok rows') :
    rows'.map (fun r => (r.name, r.value)) = rows.map fun r => (r.name, r.value) := by
  unfold reconcileSpan at h
  split at h
  · split at h
    · cases h; exact setSpan_texts _ _ _
    · cases h
  · split at h <;> (cases h; exact setSpan_texts _ _ _)

theorem reconcileLoop_texts (E : Engine) (explanations : Json) (keys : List (JsString × Nat))
    (rows : List Row) :
    (reconcileLoop E explanations keys rows).1.map (fun r => (r.name, r.value))
      = rows.map fun r => (r.name, r.value) := by
  induction keys generalizing rows with
  | nil => rfl
  | cons key keys ih =>
    unfold reconcileLoop
    cases hk : reconcileSpan E explanations rows key with
    | error e => rfl
    | ok rows' => simp only [ih, reconcileSpan_texts E explanations rows rows' key hk]

theorem showFailure_texts (statusText : JsString) (explanations : Json)
    (spans : List (JsString × Nat)) (rows : List Row) :
    (showFailure statusText explanations spans rows).map (fun r => (r.name, r.value))
      = rows.map fun r => (r.name, r.value) := by
  unfold showFailure
  split
  · generalize forInOrder spans = keys
    induction keys generalizing rows with
    | nil => rfl
    | cons key keys ih => simp only [List.foldl_cons, ih, setSpan_texts]
  · rfl

theorem reconcile_texts (E : Engine) (statusText : JsString) (explanations : Json)
    (r : Rendering) :
    (reconcile E statusText explanations r).1.map (fun r => (r.name, r.value))
      = r.rows.map fun r => (r.name, r.value) := by
  unfold reconcile
  have := reconcileLoop_texts E explanations (forInOrder r.spans) r.rows
  split
  · rename_i rows' e heq
    rw [heq] at this
    exact this
  · rename_i rows' heq
    rw [heq] at this
    split
    · exact this
    · simp only [showFailure_texts, this]

theorem showCookies_texts (E : Engine) (fetch : Request → FetchResult) (status : Status)
    (d apiKey : JsString) (cookies : List Cookie)
    (hplain : ∀ c ∈ cookies, c.name ≠ "__proto__".toList) :
    (showCookies E fetch status d apiKey cookies).rows.map (fun r => (r.name, r.value))
      = (sortByName E cookies).map
        fun c => (escapeString c.name, ": ".toList ++ escapeString c.value) := by
  have hsorted : ∀ c ∈ sortByName E cookies, c.name ≠ "__proto__".toList :=
    fun c hc => hplain c ((sortByName_perm E cookies).subset hc)
  obtain ⟨_, hrows, _, hfault⟩ := firstPass_plain E d (sortByName E cookies) hsorted
  cases cookies with
  | nil => rfl
  | cons c cs =>
    simp only [showCookies, hfault]
    split
    · simp [hrows, rowOf, Function.comp_def]
    · simp [reconcile_texts, hrows, rowOf, Function.comp_def]

theorem compareCodePoints_total (a b : JsString) :
    compareCodePoints a b ≤ 0 ∨ compareCodePoints b a ≤ 0 := by
  induction a generalizing b with
  | nil => cases b <;> simp [compareCodePoints]
  | cons x a ih =>
    cases b with
    | nil => simp [compareCodePoints]
    | cons y b =>
      simp only [compareCodePoints]
      rcases Nat.lt_trichotomy x.toNat y.toNat with h | h | h
      · simp [h]
      · simp [h, ih b]
      · right; simp [h]

theorem compareCodePoints_trans (a b c : JsString) (h1 : compareCodePoints a b ≤ 0)
    (h2 : compareCodePoints b c ≤ 0) : compareCodePoints a c ≤ 0 := by
  induction a generalizing b c with
  | nil => cases c <;> simp [compareCodePoints]
  | cons x a ih =>
    cases b with
    | nil => simp [compareCodePoints] at h1
    | cons y b =>
      cases c with
      | nil => simp [compareCodePoints] at h2
      | cons z c =>
        simp only [compareCodePoints] at h1 h2 ⊢
        by_cases hxy : x.toNat < y.toNat
        · by_cases hyz : y.toNat < z.toNat
          · have : x.toNat < z.toNat := by omega
            simp [this]
          · by_cases hzy : z.toNat < y.toNat
            · simp [hyz, hzy] at h2
            · have : x.toNat < z.toNat := by omega
              simp [this]
        · by_cases hyx : y.toNat < x.toNat
          · simp [hxy, hyx] at h1
          · simp only [hxy, hyx, if_false] at h1
            by_cases hyz : y.toNat < z.toNat
            · have : x.toNat < z.toNat := by omega
              simp [this]
            · by_cases hzy : z.toNat < y.toNat
              · simp [hyz, hzy] at h2
              · simp only [hyz, hzy, if_false] at h2
                have h3 : ¬ x.toNat < z.toNat := by omega
                have h4 : ¬ z.toNat < x.toNat := by omega
                simp only [h3, h4, if_false]
                exact ih b c h1 h2


/-- The order of the rows where the first pass is not disturbed: when
`localeCompare` orders the names consistently and no cookie is named
`__proto__`, the sorted cookies are a permutation of the cookies of the host
in non-decreasing order of name, the rows appended in the first pass are the
rows of the sorted cookies, the entries of `cookiesInfo` have the same names
in the same order, and the rows still show these names and values when the
callback has run. -/
theorem rows_sorted_by_name (E : Engine) (fetch : Request → FetchResult) (status : Status)
    (currentDomain apiKey : JsString) (cookies : List Cookie)
    (total : ∀ a b, E.localeCompare a b ≤ 0 ∨ E.localeCompare b a ≤ 0)
    (trans : ∀ a b c, E.localeCompare a b ≤ 0 → E.localeCompare b c ≤ 0 →
      E.localeCompare a c ≤ 0)
    (hplain : ∀ c ∈ cookies, c.name ≠ "__proto__".toList) :
    (sortByName E cookies).Perm cookies
    ∧ (sortByName E cookies).Pairwise (fun a b => E.localeCompare a.name b.name ≤ 0)
    ∧ (firstPass E currentDomain (sortByName E cookies)).rows
        = (sortByName E cookies).map rowOf
    ∧ (firstPass E currentDomain (sortByName E cookies)).cookiesInfo.map (fun c => c.name)
        = (sortByName E cookies).map (fun c => c.name)
    ∧ (showCookies E fetch status currentDomain apiKey cookies).rows.map
          (fun r => (r.name, r.value))
        = (sortByName E cookies).map
          (fun c => (escapeString c.name, ": ".toList ++ escapeString c.value)) := by
  have hsorted : ∀ c ∈ sortByName E cookies, c.name ≠ "__proto__".toList :=
    fun c hc => hplain c ((sortByName_perm E cookies).subset hc)
  obtain ⟨hinfo, hrows, _, _⟩ := firstPass_plain E currentDomain (sortByName E cookies) hsorted
  refine ⟨sortBy_perm _ _, ?_, hrows, ?_, showCookies_texts _ _ _ _ _ _ hplain⟩
  · have := sortBy_pairwise (fun a b : Cookie => decide (E.localeCompare a.name b.name ≤ 0))
      (fun a b => by simpa using total a.name b.name)
      (fun a b c h1 h2 => by
        simpa using trans a.name b.name c.name (by simpa using h1) (by simpa using h2))
      cookies
    simpa using this
  · rw [hinfo]
    simp [infoOf, Function.comp_def]

/-- The example of claim C7: the cookies named `b`, `a`, `c` give rows in the
order `a`, `b`, `c`. -/
theorem rows_sorted_example :
    (firstPass sampleEngine "example.com".toList (sortByName sampleEngine
        [⟨"b".toList, [], "1".toList⟩, ⟨"a".toList, [], "2".toList⟩,
          ⟨"c".toList, [], "3".toList⟩])).rows.map (fun r => r.name)
      = ["a".toList, "b".toList, "c".toList] := by
  decide

/-- Claim C7, at the failing input: the host delivers the cookies `lang` and
`__proto__`. Where no cookie is named `__proto__` the rows are the sorted
cookies, as claimed. Here the sorted order is `__proto__`, `lang`; the
assignment for `__proto__` makes its element the prototype of
`explanationSpans`, the assignment for `lang` then reaches the setter of the
attribute `lang` of elements and faults before the row is appended. One row
is in the list, not two, `fetch` is never called, and the fault leaves the
callback uncaught. -/
theorem proto_cookie_ends_first_pass :
    (∀ (E : Engine) (fetch : Request → FetchResult) (status : Status)
        (currentDomain apiKey : JsString) (cookies : List Cookie),
        (∀ a b, E.localeCompare a b ≤ 0 ∨ E.localeCompare b a ≤ 0) →
        (∀ a b c, E.localeCompare a b ≤ 0 → E.localeCompare b c ≤ 0 →
          E.localeCompare a c ≤ 0) →
        (∀ c ∈ cookies, c.name ≠ "__proto__".toList) →
        (sortByName E cookies).Perm cookies
        ∧ (sortByName E cookies).Pairwise (fun a b => E.localeCompare a.name b.name ≤ 0)
        ∧ (firstPass E currentDomain (sortByName E cookies)).rows
            = (sortByName E cookies).map rowOf
        ∧ (firstPass E currentDomain (sortByName E cookies)).cookiesInfo.map (fun c => c.name)
            = (sortByName E cookies).map (fun c => c.name)
        ∧ (showCookies E fetch status currentDomain apiKey cookies).rows.map
              (fun r => (r.name, r.value))
            = (sortByName E cookies).map
              (fun c => (escapeString c.name, ": ".toList ++ escapeString c.value)))
    ∧ (sortByName sampleEngine
        [⟨"lang".toList, [], "en".toList⟩, ⟨"__proto__".toList, [], "1".toList⟩]).map
          (fun c => c.name)
      = ["__proto__".toList, "lang".toList]
    ∧ (showCookies sampleEngine
        (fun _ => .resolved ⟨200, "OK".toList, .ok (candidateBody "\x7b\x7d".toList)⟩)
        ⟨[], [], []⟩ "example.com".toList "KEY".toList
        [⟨"lang".toList, [], "en".toList⟩, ⟨"__proto__".toList, [], "1".toList⟩]).rows.map
          (fun r => r.name)
      = ["__proto__".toList]
    ∧ (showCookies sampleEngine
        (fun _ => .resolved ⟨200, "OK".toList, .ok (candidateBody "\x7b\x7d".toList)⟩)
        ⟨[], [], []⟩ "example.com".toList "KEY".toList
        [⟨"lang".toList, [], "en".toList⟩, ⟨"__proto__".toList, [], "1".toList⟩]).requests = []
    ∧ (showCookies sampleEngine
        (fun _ => .resolved ⟨200, "OK".toList, .ok (candidateBody "\x7b\x7d".toList)⟩)
        ⟨[], [], []⟩ "example.com".toList "KEY".toList
        [⟨"lang".toList, [], "en".toList⟩, ⟨"__proto__".toList, [], "1".toList⟩]).uncaught
      = some (.fault .illegalInvocation) := by
  refine ⟨fun E fetch status currentDomain apiKey cookies total trans hplain =>
    rows_sorted_by_name E fetch status currentDomain apiKey cookies total trans hplain,
    by decide, by decide, by decide, by decide⟩

/-! ### The reconciliation pass -/

theorem keys_putKey (name : JsString) (index : Nat) (spans : List (JsString × Nat)) :
    (putKey name index spans).map Prod.fst
      = if name ∈ spans.map Prod.fst then spans.map Prod.fst
        else spans.map Prod.fst ++ [name] := by
  induction spans with
  | nil => simp [putKey]
  | cons p spans ih =>
    obtain ⟨k, j⟩ := p
    by_cases hk : k = name
    · simp [putKey, hk]
    · have hk' : ¬ name = k := fun h => hk h.symm
      simp only [putKey, hk, if_false, List.map_cons, ih, List.mem_cons, hk', false_or]
      split <;> simp

theorem mem_putKey (name : JsString) (index : Nat) (spans : List (JsString × Nat))
    (hnd : (spans.map Prod.fst).Nodup) (k : JsString) (j : Nat) :
    (k, j) ∈ putKey name index spans
      ↔ (k = name ∧ j = index) ∨ (k ≠ name ∧ (k, j) ∈ spans) := by
  induction spans with
  | nil => simp [putKey]
  | cons p spans ih =>
    obtain ⟨k0, j0⟩ := p
    simp only [List.map_cons, List.nodup_cons] at hnd
    obtain ⟨hk0, hnd⟩ := hnd
    by_cases hk : k0 = name
    · subst hk
      simp only [putKey, if_true, List.mem_cons, Prod.mk.injEq]
      constructor
      · rintro (⟨rfl, rfl⟩ | h)
        · exact Or.inl ⟨rfl, rfl⟩
        · right
          refine ⟨?_, Or.inr h⟩
          rintro rfl
          exact hk0 (List.mem_map.mpr ⟨_, h, rfl⟩)
      · rintro (⟨rfl, rfl⟩ | ⟨hne, h | h⟩)
        · exact Or.inl ⟨rfl, rfl⟩
        · exact absurd h.1 hne
        · exact Or.inr h
    · simp only [putKey, hk, if_false, List.mem_cons, Prod.mk.injEq, ih hnd]
      constructor
      · rintro (⟨rfl, rfl⟩ | h | h)
        · exact Or.inr ⟨hk, Or.inl ⟨rfl, rfl⟩⟩
        · exact Or.inl h
        · exact Or.inr ⟨h.1, Or.inr h.2⟩
      · rintro (h | ⟨hne, h | h⟩)
        · exact Or.inr (Or.inl h)
        · exact Or.inl h
        · exact Or.inr (Or.inr ⟨hne, h⟩)

theorem SpansOk.nil : SpansOk [] [] := by
  refine ⟨by simp, ?_, ?_⟩ <;> simp

theorem SpansOk.step (names : List JsString) (spans : List (JsString × Nat)) (name : JsString)
    (h : SpansOk names spans) :
    SpansOk (names ++ [name]) (putKey name names.length spans) := by
  obtain ⟨hnd, hlast, hall⟩ := h
  have hbound : ∀ k j, (k, j) ∈ spans → j < names.length := by
    intro k j hkj
    have := (hlast k j hkj).1
    exact (List.getElem?_eq_some.mp this).1
  refine ⟨?_, ?_, ?_⟩
  · rw [keys_putKey]
    split
    · exact hnd
    · rename_i hmem
      exact List.Nodup.append hnd (by simp) (by simpa using hmem)
  · intro k j hkj
    rcases (mem_putKey name names.length spans hnd k j).mp hkj with ⟨rfl, rfl⟩ | ⟨hne, hmem⟩
    · refine ⟨by simp, ?_⟩
      intro j' hj'
      rw [List.getElem?_eq_none (by simp; omega)]
      simp
    · obtain ⟨h1, h2⟩ := hlast k j hmem
      have hj := hbound k j hmem
      refine ⟨by rw [List.getElem?_append_left hj]; exact h1, ?_⟩
      intro j' hj'
      by_cases hlt : j' < names.length
      · rw [List.getElem?_append_left hlt]
        exact h2 j' hj'
      · by_cases heq : j' = names.length
        · subst heq
          simp
          exact fun h => hne h.symm
        · rw [List.getElem?_eq_none (by simp; omega)]
          simp
  · intro k hk
    by_cases hkn : k = name
    · exact ⟨names.length, (mem_putKey name names.length spans hnd k _).mpr (Or.inl ⟨hkn, rfl⟩)⟩
    · rcases List.mem_append.mp hk with hk | hk
      · obtain ⟨j, hj⟩ := hall k hk
        exact ⟨j, (mem_putKey name names.length spans hnd k j).mpr (Or.inr ⟨hkn, hj⟩)⟩
      · simp at hk
        exact absurd hk hkn

theorem foldl_renderCookie_spans (E : Engine) (d : JsString) (cs : List Cookie) (r : Rendering)
    (names : List JsString) (hplain : ∀ c ∈ cs, c.name ≠ "__proto__".toList)
    (hr : r.replaced = false) (hf : r.fault = none)
    (hlen : r.rows.length = names.length) (h : SpansOk names r.spans) :
    SpansOk (names ++ cs.map (·.name)) (cs.foldl (renderCookie E d) r).spans := by
  induction cs generalizing r names with
  | nil => simpa using h
  | cons c cs ih =>
    have hc := hplain c (List.mem_cons_self _ _)
    have hrest : ∀ x ∈ cs, x.name ≠ "__proto__".toList :=
      fun x hx => hplain x (List.mem_cons_of_mem _ hx)
    simp only [List.foldl_cons, List.map_cons, renderCookie_plain E d r c hc hr hf]
    have := ih ⟨r.cookiesInfo ++ [infoOf d c], r.rows ++ [rowOf c],
      putKey c.name r.rows.length r.spans, false, none⟩ (names ++ [c.name]) hrest rfl rfl
      (by simp [hlen]) (by simpa [hlen] using SpansOk.step names r.spans c.name h)
    simpa using this

theorem firstPass_spans (E : Engine) (d : JsString) (cs : List Cookie)
    (hplain : ∀ c ∈ cs, c.name ≠ "__proto__".toList) :
    SpansOk (cs.map (·.name)) (firstPass E d cs).spans := by
  simpa using foldl_renderCookie_spans E d cs ⟨[], [], [], false, none⟩ [] hplain rfl rfl rfl
    SpansOk.nil

theorem SpansOk.mem_of_last (names : List JsString) (spans : List (JsString × Nat))
    (h : SpansOk names spans) (i : Nat) (n : JsString) (hi : names[i]? = some n)
    (hlast : ∀ j, i < j → names[j]? ≠ some n) : (n, i) ∈ spans := by
  obtain ⟨_, hl, hall⟩ := h
  obtain ⟨j, hj⟩ := hall n (List.getElem?_mem hi)
  obtain ⟨h1, h2⟩ := hl n j hj
  rcases Nat.lt_trichotomy i j with hlt | heq | hgt
  · exact absurd h1 (hlast j hlt)
  · rw [heq]; exact hj
  · exact absurd hi (h2 i hgt)

theorem SpansOk.nodup_indices (names : List JsString) (spans : List (JsString × Nat))
    (h : SpansOk names spans) : (spans.map Prod.snd).Nodup := by
  obtain ⟨hnd, hl, _⟩ := h
  refine List.Nodup.map_on ?_ (List.Nodup.of_map _ hnd)
  rintro ⟨k1, j1⟩ h1 ⟨k2, j2⟩ h2 heq
  simp only at heq
  subst heq
  have a := (hl k1 j1 h1).1
  have b := (hl k2 j1 h2).1
  rw [a] at b
  cases b
  rfl

theorem forInOrder_perm (spans : List (JsString × Nat)) : (forInOrder spans).Perm spans := by
  unfold forInOrder
  exact (List.Perm.append_right _ (sortBy_perm _ _)).trans (List.filter_append_perm _ spans)

theorem length_setSpan (rows : List Row) (i : Nat) (span : Span) :
    (setSpan rows i span).length = rows.length := by
  induction rows generalizing i with
  | nil => rfl
  | cons r rows ih => cases i <;> simp [setSpan, ih]

theorem getElem?_setSpan_ne (rows : List Row) (i j : Nat) (span : Span) (h : j ≠ i) :
    (setSpan rows j span)[i]? = rows[i]? := by
  induction rows generalizing i j with
  | nil => rfl
  | cons r rows ih =>
    cases j with
    | zero =>
      cases i with
      | zero => exact absurd rfl h
      | succ i => rfl
    | succ j =>
      cases i with
      | zero => simp [setSpan]
      | succ i => simpa [setSpan] using ih i j (by omega)

theorem getElem?_setSpan_self (rows : List Row) (i : Nat) (span : Span) (h : i < rows.length) :
    ((setSpan rows i span)[i]?).map (·.explanation) = some span := by
  induction rows generalizing i with
  | nil => simp at h
  | cons r rows ih =>
    cases i with
    | zero => simp [setSpan]
    | succ i => simpa [setSpan] using ih i (by simpa using h)

theorem reconcileSpan_shape (E : Engine) (explanations : Json) (rows rows' : List Row)
    (key : JsString × Nat) (h : reconcileSpan E explanations rows key = .ok rows') :
    ∃ span, rows' = setSpan rows key.2 span := by
  unfold reconcileSpan at h
  split at h
  · split at h
    · cases h; exact ⟨_, rfl⟩
    · cases h
  · split at h <;> (cases h; exact ⟨_, rfl⟩)

theorem reconcileLoop_untouched (E : Engine) (explanations : Json)
    (keys : List (JsString × Nat)) (rows : List Row) (i : Nat)
    (hi : i ∉ keys.map Prod.snd) :
    (reconcileLoop E explanations keys rows).1[i]? = rows[i]? := by
  induction keys generalizing rows with
  | nil => rfl
  | cons key keys ih =>
    simp only [List.map_cons, List.mem_cons, not_or] at hi
    unfold reconcileLoop
    cases hk : reconcileSpan E explanations rows key with
    | error e => rfl
    | ok rows' =>
      obtain ⟨span, rfl⟩ := reconcileSpan_shape E explanations rows rows' key hk
      simp only
      rw [ih _ hi.2, getElem?_setSpan_ne _ _ _ _ (fun h => hi.1 h.symm)]

theorem reconcileSpan_resolved (E : Engine) (fields : List (JsString × Json)) (rows : List Row)
    (name : JsString) (i : Nat) (s : JsString) (hmap : lookupLast name fields = some (.str s))
    (hs : s ≠ []) :
    reconcileSpan E (.obj fields) rows (name, i)
      = .ok (setSpan rows i ⟨"explanation".toList, escapeString s⟩) := by
  cases s with
  | nil => exact absurd rfl hs
  | cons a t =>
    simp [reconcileSpan, lookupExplanation, hmap, Json.truthy, JsValue.truthy, escapeHtml]

theorem reconcileLoop_resolved (E : Engine) (fields : List (JsString × Json))
    (keys : List (JsString × Nat)) (rows : List Row) (name : JsString) (i : Nat) (s : JsString)
    (hmap : lookupLast name fields = some (.str s)) (hs : s ≠ [])
    (hmem : (name, i) ∈ keys) (hnd : (keys.map Prod.snd).Nodup) (hi : i < rows.length)
    (hdone : (reconcileLoop E (.obj fields) keys rows).2 = none) :
    ((reconcileLoop E (.obj fields) keys rows).1[i]?).map (·.explanation)
      = some ⟨"explanation".toList, escapeString s⟩ := by
  induction keys generalizing rows with
  | nil => simp at hmem
  | cons key keys ih =>
    simp only [List.map_cons, List.nodup_cons] at hnd
    unfold reconcileLoop at hdone ⊢
    cases hk : reconcileSpan E (.obj fields) rows key with
    | error e => simp [hk] at hdone
    | ok rows' =>
      simp only [hk] at hdone ⊢
      rcases List.mem_cons.mp hmem with heq | hmem'
      · subst heq
        rw [reconcileSpan_resolved E fields rows name i s hmap hs] at hk
        cases hk
        rw [reconcileLoop_untouched E _ keys _ i hnd.1]
        exact getElem?_setSpan_self rows i _ hi
      · obtain ⟨span, rfl⟩ := reconcileSpan_shape E _ rows rows' key hk
        exact ih _ hmem' hnd.2 (by simpa [length_setSpan] using hi) hdone

/-- The loop runs to its end when every value it looks up is falsy or a string. -/
theorem reconcileLoop_completes (E : Engine) (explanations : Json)
    (keys : List (JsString × Nat)) (rows : List Row)
    (h : ∀ key ∈ keys, (lookupExplanation E explanations key.1).truthy = true →
      ∃ s, lookupExplanation E explanations key.1 = .json (.str s)) :
    (reconcileLoop E explanations keys rows).2 = none := by
  induction keys generalizing rows with
  | nil => rfl
  | cons key keys ih =>
    have hrest : ∀ k ∈ keys, (lookupExplanation E explanations k.1).truthy = true →
        ∃ s, lookupExplanation E explanations k.1 = .json (.str s) :=
      fun k hk => h k (List.mem_cons_of_mem _ hk)
    have hkey := h key (List.mem_cons_self _ _)
    unfold reconcileLoop
    cases hk : reconcileSpan E explanations rows key with
    | ok rows' => exact ih rows' hrest
    | error e =>
      exfalso
      unfold reconcileSpan at hk
      split at hk
      · rename_i hcond
        simp only [Bool.and_eq_true] at hcond
        obtain ⟨s, hs⟩ := hkey hcond.2
        rw [hs] at hk hcond
        simp only [escapeHtml, hcond.2, Bool.not_true, Bool.false_eq_true, if_false] at hk
        cases hk
      · split at hk <;> cases hk

/-- Claim C2, as amended: let the rows be those of the first pass over a list
of cookies none of which is named `__proto__`, and let the returned map be an
object. For a row after which no row has the same cookie name, whose name the
map gives a non-empty explanation string, a reconciliation pass that runs to
its end leaves the slot with the text `escapeHtml` gives for the explanation
and the class `explanation`. -/
theorem mapped_row_resolved (E : Engine) (statusText currentDomain : JsString)
    (cookies : List Cookie) (fields : List (JsString × Json)) (i : Nat) (cookie : Cookie)
    (s : JsString)
    (hrow : cookies[i]? = some cookie)
    (hlast : ∀ j other, i < j → cookies[j]? = some other → other.name ≠ cookie.name)
    (hplain : ∀ other ∈ cookies, other.name ≠ "__proto__".toList)
    (hmap : lookupLast cookie.name fields = some (.str s))
    (hs : s ≠ [])
    (hdone : (reconcile E statusText (.obj fields) (firstPass E currentDomain cookies)).2
      = none) :
    escapeHtml (.json (.str s)) = .ok (escapeString s)
    ∧ ((reconcile E statusText (.obj fields) (firstPass E currentDomain cookies)).1[i]?).map
        (·.explanation)
      = some ⟨"explanation".toList, escapeString s⟩ := by
  have hok := firstPass_spans E currentDomain cookies hplain
  obtain ⟨_, hrows, hreplaced, _⟩ := firstPass_plain E currentDomain cookies hplain
  have hmem : (cookie.name, i) ∈ (firstPass E currentDomain cookies).spans := by
    apply SpansOk.mem_of_last _ _ hok i cookie.name (by simp [hrow])
    intro j hj hcontra
    rw [List.getElem?_map] at hcontra
    cases hc : cookies[j]? with
    | none => simp [hc] at hcontra
    | some other =>
      simp [hc] at hcontra
      exact hlast j other hj hc hcontra
  have hperm := forInOrder_perm (firstPass E currentDomain cookies).spans
  have hnd : ((forInOrder (firstPass E currentDomain cookies).spans).map Prod.snd).Nodup :=
    ((hperm.map Prod.snd).nodup_iff).mpr (SpansOk.nodup_indices _ _ hok)
  have hi : i < (firstPass E currentDomain cookies).rows.length := by
    rw [hrows, List.length_map]
    exact (List.getElem?_eq_some.mp hrow).1
  constructor
  · cases s with
    | nil => exact absurd rfl hs
    | cons a t => rfl
  · unfold reconcile at hdone ⊢
    cases hloop : reconcileLoop E (.obj fields)
        (forInOrder (firstPass E currentDomain cookies).spans)
        (firstPass E currentDomain cookies).rows with
    | mk rows' fault =>
      cases fault with
      | some e => simp [hloop] at hdone
      | none =>
        have := reconcileLoop_resolved E fields _ _ cookie.name i s hmap hs
          (hperm.mem_iff.mpr hmem) hnd hi (by rw [hloop])
        rw [hloop] at this
        simpa [showFailure, inheritedKeys, hreplaced, visitInheritedKeys] using this

/-- Claim C2, as amended, at the cookie `sid` and the map that explains it. -/
theorem mapped_row_resolved_witness :
    ((reconcile sampleEngine [] (.obj [("sid".toList, .str "Session identifier.".toList)])
        (firstPass sampleEngine "example.com".toList
          [⟨"sid".toList, [], "xyz".toList⟩])).1[0]?).map
        (fun r => r.explanation)
      = some ⟨"explanation".toList, "Session identifier.".toList⟩ :=
  (mapped_row_resolved sampleEngine [] "example.com".toList [⟨"sid".toList, [], "xyz".toList⟩]
    [("sid".toList, .str "Session identifier.".toList)] 0 ⟨"sid".toList, [], "xyz".toList⟩
    "Session identifier.".toList rfl
    (by
      intro j other hj h
      cases j with
      | zero => omega
      | succ j => simp at h)
    (by decide) rfl (by decide) rfl).2

/-- Claim C2 fails as stated: the map gives the cookie `sid` the empty string,
and the slot of its row ends as `No explanation received for this cookie.`
with the class `explanation error`, not as the escaped empty text with the
class `explanation`. -/
theorem empty_explanation_not_resolved :
    lookupLast "sid".toList [("sid".toList, Json.str [])] = some (.str [])
    ∧ ((reconcile sampleEngine [] (.obj [("sid".toList, .str [])])
        (firstPass sampleEngine "example.com".toList
          [⟨"sid".toList, [], "xyz".toList⟩])).1[0]?).map
        (fun r => r.explanation)
      = some ⟨"explanation error".toList, "No explanation received for this cookie.".toList⟩
    ∧ ((reconcile sampleEngine [] (.obj [("sid".toList, .str [])])
        (firstPass sampleEngine "example.com".toList
          [⟨"sid".toList, [], "xyz".toList⟩])).1[0]?).map
        (fun r => r.explanation)
      ≠ some ⟨"explanation".toList, escapeString []⟩ := by
  refine ⟨rfl, by decide, by decide⟩

/-- Claim C9, at the failing input: two cookies of the same name `a`, from two
domains, and a response that explains `a`. Both rows are rendered, the key
`a` of `explanationSpans` holds the element of the second row only, and when
the callback has run, without a fault, the slot of the first row is still the
placeholder with the class `explanation loading`. -/
theorem duplicate_name_stays_loading :
    (showCookies sampleEngine
        (fun _ => .resolved ⟨200, "OK".toList,
          .ok (candidateBody "\x7b\"a\":\"Session.\"\x7d".toList)⟩)
        ⟨[], [], []⟩ "example.com".toList "KEY".toList
        [⟨"a".toList, "example.com".toList, "1".toList⟩,
          ⟨"a".toList, ".example.com".toList, "2".toList⟩]).rows.map (fun r => r.explanation)
      = [⟨"explanation loading".toList, " ".toList⟩, ⟨"explanation".toList, "Session.".toList⟩]
    ∧ (showCookies sampleEngine
        (fun _ => .resolved ⟨200, "OK".toList,
          .ok (candidateBody "\x7b\"a\":\"Session.\"\x7d".toList)⟩)
        ⟨[], [], []⟩ "example.com".toList "KEY".toList
        [⟨"a".toList, "example.com".toList, "1".toList⟩,
          ⟨"a".toList, ".example.com".toList, "2".toList⟩]).uncaught = none := by
  constructor <;> decide

/-- Claim C10, at the failing input: the call itself never throws when it has
a credential and a cookie, but for the response text of the object that gives
`sid` the number 1 it returns that object, `escapeHtml` is called with the
number, and the fault leaves the callback uncaught with the slot still in its
placeholder state. -/
theorem number_explanation_faults :
    (∀ (E : Engine) (fetch : Request → FetchResult) (status : Status) (c : CookieInfo)
        (cs : List CookieInfo) (apiKey : JsString), apiKey ≠ [] →
        ∃ v, (getBatchCookieExplanations E fetch status (c :: cs) apiKey).result = .ok v)
    ∧ (showCookies sampleEngine
        (fun _ => .resolved ⟨200, "OK".toList, .ok (candidateBody "\x7b\"sid\":1\x7d".toList)⟩)
        ⟨[], [], []⟩ "example.com".toList "KEY".toList
        [⟨"sid".toList, [], "xyz".toList⟩]).uncaught
      = some (.fault (.notAFunction "unsafe.replace".toList))
    ∧ (showCookies sampleEngine
        (fun _ => .resolved ⟨200, "OK".toList, .ok (candidateBody "\x7b\"sid\":1\x7d".toList)⟩)
        ⟨[], [], []⟩ "example.com".toList "KEY".toList
        [⟨"sid".toList, [], "xyz".toList⟩]).rows.map (fun r => r.explanation)
      = [⟨"explanation loading".toList, " ".toList⟩] := by
  refine ⟨fun E fetch status c cs apiKey hkey => explain_returns E fetch status c cs apiKey hkey,
    by decide, by decide⟩

end CookieClarity
